import Mathlib

/-!
Verification of the SuperSonic host/DSP boundary core against its
natural-language specification.  Shallow embedding of the C++ sources:

* `src/src/scheduler/BundleScheduler.h` — fixed-pool bundle scheduler;
* `src/src/audio_processor.cpp` — classifier, ring writer, inbound drain,
  scheduled dispatch, audio capture, render entrypoint;
* `src/src/node_tree.cpp` / `src/src/shared_memory.h` — node-tree mirror.

Machine integers are modelled as `Nat`/`Int` with explicit `% 2^w`
where wrap-around matters.  All state is passed explicitly.
-/

set_option maxRecDepth 100000

namespace SuperSonic

/-! ### Bundle scheduler (src/src/scheduler/BundleScheduler.h) -/

/-- `MAX_SCHEDULED_BUNDLES` from BundleScheduler.h line 21. -/
def MAX_SCHEDULED_BUNDLES : Nat := 128

/-- `ScheduledBundle` (BundleScheduler.h lines 24-66).  `mWorld` and
`mReplyAddr` are raw pointers into the engine and are omitted; `mData`
holds the embedded OSC bytes (`char mData[8192]`, modelled as the list of
meaningful bytes). -/
structure ScheduledBundle where
  mTime : Int
  mSize : Int
  mStabilityCount : Int
  mInUse : Bool
  mData : List Nat
deriving DecidableEq

/-- Default-constructed `ScheduledBundle` (mTime 0, mSize 0, stability 0,
not in use; the `mData` array is uninitialized in C++, modelled empty). -/
def bundleDefault : ScheduledBundle :=
  { mTime := 0, mSize := 0, mStabilityCount := 0, mInUse := false, mData := [] }

/-- `ScheduledBundle::Init` (lines 37-48): overwrite the slot in place and
mark it in use; the payload is copied only when `0 < size ∧ size ≤ 8192`. -/
def ScheduledBundle.Init (b : ScheduledBundle) (time : Int) (data : List Nat)
    (size : Int) (stabilityCount : Int) : ScheduledBundle :=
  { mTime := time, mSize := size, mStabilityCount := stabilityCount, mInUse := true,
    mData := if 0 < size ∧ size ≤ 8192 then data.take size.toNat else b.mData }

/-- `ScheduledBundle::Release` (lines 61-65): mark the slot free and zero
`mSize` (`mWorld` is also nulled; it is not modelled). -/
def ScheduledBundle.Release (b : ScheduledBundle) : ScheduledBundle :=
  { b with mInUse := false, mSize := 0 }

/-- `QueueEntry` (BundleScheduler.h lines 69-87). `poolIndex` is an
`int16_t` (-1 = invalid). -/
structure QueueEntry where
  time : Int
  stabilityCount : Int
  poolIndex : Int
deriving DecidableEq

/-- `QueueEntry::operator<` (lines 76-80): primary ascending `time`,
tie-break ascending `stabilityCount`. -/
def QueueEntry.ltE (a b : QueueEntry) : Bool :=
  if a.time < b.time then true
  else if a.time > b.time then false
  else a.stabilityCount < b.stabilityCount

/-- `BundleScheduler` state (lines 92-98): pool of bundles (never moved),
sorted queue of entries, monotonic stability counter. -/
structure BundleScheduler where
  mPool : Nat → ScheduledBundle
  mQueue : List QueueEntry
  mStabilityCounter : Int

/-- The default-constructed scheduler: empty queue, zero counter, all pool
slots default-constructed (not in use). -/
def sched0 : BundleScheduler :=
  { mPool := fun _ => bundleDefault, mQueue := [], mStabilityCounter := 0 }

/-- `BundleScheduler::AllocateSlot` (lines 103-110): first pool index that
is not in use (`none` plays the role of the C++ return value `-1`). -/
def BundleScheduler.AllocateSlot (s : BundleScheduler) : Option Nat :=
  (List.range MAX_SCHEDULED_BUNDLES).find? (fun i => !(s.mPool i).mInUse)

/-- The sorted-queue insertion of `BundleScheduler::Add` (lines 134-148):
the entry is inserted before the first queue element it compares `<` to,
and later entries are shifted up. -/
def insertEntry (e : QueueEntry) : List QueueEntry → List QueueEntry
  | [] => [e]
  | x :: xs => if QueueEntry.ltE e x then e :: x :: xs else x :: insertEntry e xs

/-- `BundleScheduler::Add` (lines 113-152).  Fails when the queue is at
capacity or no pool slot is free; otherwise initializes a pool slot with
the current stability counter (then increments the counter) and inserts a
queue entry at the sorted position. -/
def BundleScheduler.Add (s : BundleScheduler) (time : Int) (data : List Nat)
    (size : Int) : Bool × BundleScheduler :=
  if s.mQueue.length ≥ MAX_SCHEDULED_BUNDLES then (false, s)
  else
    match s.AllocateSlot with
    | none => (false, s)
    | some slot =>
      let b := (s.mPool slot).Init time data size s.mStabilityCounter
      let entry : QueueEntry :=
        { time := time, stabilityCount := b.mStabilityCount, poolIndex := (slot : Int) }
      (true,
        { mPool := Function.update s.mPool slot b,
          mQueue := insertEntry entry s.mQueue,
          mStabilityCounter := s.mStabilityCounter + 1 })

/-- `INT64_MAX`, returned by `NextTime` on an empty queue. -/
def INT64_MAX : Int := 9223372036854775807

/-- `BundleScheduler::NextTime` (lines 155-160). -/
def BundleScheduler.NextTime (s : BundleScheduler) : Int :=
  match s.mQueue with
  | [] => INT64_MAX
  | e :: _ => e.time

/-- `BundleScheduler::Remove` (lines 163-182): pop the queue head and
return its pool index (the bundle stays in the pool until released);
returns `none` for an empty queue or an out-of-range pool index. -/
def BundleScheduler.Remove (s : BundleScheduler) : Option Nat × BundleScheduler :=
  match s.mQueue with
  | [] => (none, s)
  | e :: rest =>
    let s' := { s with mQueue := rest }
    if 0 ≤ e.poolIndex ∧ e.poolIndex < (MAX_SCHEDULED_BUNDLES : Int) then
      (some e.poolIndex.toNat, s')
    else (none, s')

/-- Modelled from the spec: `BundleScheduler::ReleaseSlot` is invoked from
`process_audio` (audio_processor.cpp line 749) but its definition is not
among the provided sources.  Spec 4.4: `release(bundle)` "marks slot free;
zeroes `size` and `world`", which is exactly `ScheduledBundle::Release`
applied to the slot. -/
def BundleScheduler.ReleaseSlot (s : BundleScheduler) (slot : Nat) : BundleScheduler :=
  { s with mPool := Function.update s.mPool slot ((s.mPool slot).Release) }

/-- `BundleScheduler::Size` (`mQueueSize`). -/
def BundleScheduler.Size (s : BundleScheduler) : Nat := s.mQueue.length

/-- `BundleScheduler::IsFull` (line 185). -/
def BundleScheduler.IsFull (s : BundleScheduler) : Bool :=
  s.mQueue.length ≥ MAX_SCHEDULED_BUNDLES

/-- `BundleScheduler::Clear` (lines 189-194): empty the queue and release
every pool slot. -/
def BundleScheduler.Clear (s : BundleScheduler) : BundleScheduler :=
  { s with mQueue := [],
           mPool := fun i =>
             if i < MAX_SCHEDULED_BUNDLES then (s.mPool i).Release else s.mPool i }

/-- Strict lexicographic order on `(time_tag, stability)` keys. -/
def pairLt (a b : Int × Int) : Prop := a.1 < b.1 ∨ (a.1 = b.1 ∧ a.2 < b.2)

/-- Non-strict lexicographic order on `(time_tag, stability)` keys. -/
def pairLe (a b : Int × Int) : Prop := a.1 < b.1 ∨ (a.1 = b.1 ∧ a.2 ≤ b.2)

instance (a b : Int × Int) : Decidable (pairLt a b) := by unfold pairLt; infer_instance

instance (a b : Int × Int) : Decidable (pairLe a b) := by unfold pairLe; infer_instance

/-- The ordering key of a queue entry. -/
def entryKey (e : QueueEntry) : Int × Int := (e.time, e.stabilityCount)

/-- The ordering key of a scheduled bundle. -/
def bundleKey (b : ScheduledBundle) : Int × Int := (b.mTime, b.mStabilityCount)

/-- One `Add` request: the arguments the dispatcher passes to
`BundleScheduler::Add` (`world` and `replyAddr` omitted). -/
structure AddReq where
  time : Int
  data : List Nat
  size : Int
deriving DecidableEq

/-- Run a list of `Add` calls, discarding the success flags. -/
def runAdds (s : BundleScheduler) : List AddReq → BundleScheduler
  | [] => s
  | a :: rest => runAdds (s.Add a.time a.data a.size).2 rest

/-- Drain loop: call `Remove` until it yields nothing, collecting the pool
records the caller would dispatch.  `fuel` bounds the recursion; the queue
length suffices because `Remove` pops one entry per call. -/
def drainLoop : Nat → BundleScheduler → List ScheduledBundle
  | 0, _ => []
  | fuel + 1, s =>
    match s.Remove with
    | (none, _) => []
    | (some slot, s') => s'.mPool slot :: drainLoop fuel s'

/-- Remove every scheduled bundle, in removal order. -/
def drainAll (s : BundleScheduler) : List ScheduledBundle :=
  drainLoop s.mQueue.length s

/-- Expected `(time_tag, stability)` keys of a run of adds whose first add
sees stability counter `c`. -/
def stampKeys (c : Int) : List AddReq → List (Int × Int)
  | [] => []
  | a :: rest => (a.time, c) :: stampKeys (c + 1) rest

/-- Scheduler operations as interleaved by the dispatcher. -/
inductive SchedOp where
  | addOp (time : Int) (data : List Nat) (size : Int)
  | removeOp
deriving DecidableEq

/-- Run interleaved `Add`/`Remove` calls, collecting the
`(time_tag, stability)` keys of the bundles `Remove` returns, in order. -/
def runOps : BundleScheduler → List SchedOp → List (Int × Int) × BundleScheduler
  | s, [] => ([], s)
  | s, .addOp t d sz :: rest => runOps (s.Add t d sz).2 rest
  | s, .removeOp :: rest =>
    match s.Remove with
    | (some slot, s') =>
      let r := runOps s' rest
      (bundleKey (s'.mPool slot) :: r.1, r.2)
    | (none, s') => runOps s' rest

/-- Scheduler state invariant: the queue is strictly sorted by
`(time, stability)`, queued stabilities are below the counter, every queued
entry points at an in-range pool slot whose record matches the entry,
pool usage mirrors queue membership, and pool indices are not duplicated. -/
def SchedInv (s : BundleScheduler) : Prop :=
  s.mQueue.Pairwise (fun a b => pairLt (entryKey a) (entryKey b)) ∧
  (∀ e ∈ s.mQueue, e.stabilityCount < s.mStabilityCounter) ∧
  (∀ e ∈ s.mQueue, 0 ≤ e.poolIndex ∧ e.poolIndex < (MAX_SCHEDULED_BUNDLES : Int) ∧
    (s.mPool e.poolIndex.toNat).mTime = e.time ∧
    (s.mPool e.poolIndex.toNat).mStabilityCount = e.stabilityCount) ∧
  (∀ i, i < MAX_SCHEDULED_BUNDLES →
    ((s.mPool i).mInUse = true ↔ ∃ e ∈ s.mQueue, e.poolIndex = (i : Int))) ∧
  (s.mQueue.map QueueEntry.poolIndex).Nodup

/-- Preconditions for the drain/dispatch loops: sorted queue, in-range pool
indices matching the entries, no duplicated index. -/
def DispatchPre (s : BundleScheduler) : Prop :=
  s.mQueue.Pairwise (fun a b => pairLt (entryKey a) (entryKey b)) ∧
  (∀ e ∈ s.mQueue, 0 ≤ e.poolIndex ∧ e.poolIndex < (MAX_SCHEDULED_BUNDLES : Int) ∧
    (s.mPool e.poolIndex.toNat).mTime = e.time ∧
    (s.mPool e.poolIndex.toNat).mStabilityCount = e.stabilityCount) ∧
  (s.mQueue.map QueueEntry.poolIndex).Nodup

instance (s : BundleScheduler) : Decidable (DispatchPre s) := by
  unfold DispatchPre
  infer_instance

/-- Scheduled-dispatch loop of `process_audio` (audio_processor.cpp lines
681-750): while the scheduler head time is at most `nextOscTime`, pop the
bundle, dispatch it, and release its slot.  The sample-offset computation
and the lateness metrics (floating point, not modelled) do not affect
which bundles are dispatched.  `fuel` bounds the recursion; the queue
length suffices because each iteration pops one entry. -/
def dispatchLoop : Nat → BundleScheduler → Int → List ScheduledBundle × BundleScheduler
  | 0, s, _ => ([], s)
  | fuel + 1, s, nextOscTime =>
    if s.NextTime ≤ nextOscTime then
      match s.Remove with
      | (some slot, s1) =>
        let b := s1.mPool slot
        let s2 := s1.ReleaseSlot slot
        let r := dispatchLoop fuel s2 nextOscTime
        (b :: r.1, r.2)
      | (none, s1) => ([], s1)
    else ([], s)

/-- All bundles due within this quantum: the loop bound is
`nextOscTime = currentOscTime + g_osc_increment` (lines 679-683). -/
def dispatchDue (s : BundleScheduler) (currentOscTime oscIncrement : Int) :
    List ScheduledBundle × BundleScheduler :=
  dispatchLoop s.mQueue.length s (currentOscTime + oscIncrement)

/-! ### Payload classifier (audio_processor.cpp lines 160-172, 604-646) -/

/-- `strncmp(a, b, n)` on byte strings: compare at most `n` bytes, stopping
at the first difference or at a null terminator; a missing byte past the
end of a list is treated as the string's null terminator. -/
def strncmpBytes : Nat → List Nat → List Nat → Int
  | 0, _, _ => 0
  | _ + 1, [], [] => 0
  | _ + 1, [], y :: _ => 0 - (y : Int)
  | _ + 1, x :: _, [] => (x : Int)
  | n + 1, x :: xs, y :: ys =>
    if x = y then (if x = 0 then 0 else strncmpBytes n xs ys) else (x : Int) - (y : Int)

/-- The seven bytes of the C string literal `"#bundle"` (the literal's
null terminator is byte 8 and is never reached by `strncmp(..., 7)`). -/
def bundleLit7 : List Nat := [35, 98, 117, 110, 100, 108, 101]

/-- `is_bundle` (audio_processor.cpp lines 160-163): a payload is treated
as a bundle iff its size is at least 16 and `strncmp(data, "#bundle", 7)`
is zero — i.e. only the first SEVEN bytes are compared. -/
def is_bundle (data : List Nat) : Bool :=
  if data.length < 16 then false
  else strncmpBytes 7 data bundleLit7 == 0

/-- `extract_timetag` (lines 166-172): big-endian 64-bit read of bytes
8..15 (`timetag = (timetag << 8) | (uint8_t)data[8+i]`, `uint64_t`
arithmetic). -/
def extract_timetag (data : List Nat) : Nat :=
  (List.range 8).foldl
    (fun timetag i => ((timetag <<< 8) ||| (data.getD (8 + i) 0 % 256)) % 2 ^ 64) 0

/-- How the drain loop routes one payload (lines 604-646). -/
inductive MsgKind where
  | immediateBundle
  | scheduledBundle
  | backpressure
  | plainMessage
deriving DecidableEq

/-- The classifier branch of the drain loop: bundles with time tag 0 or 1
execute now, other bundles are scheduled unless the scheduler is full
(backpressure), everything else is dispatched as a single message via
`PerformOSCMessage`. -/
def classify (payload : List Nat) (schedulerFull : Bool) : MsgKind :=
  if is_bundle payload then
    let timetag := extract_timetag payload
    if timetag = 0 ∨ timetag = 1 then MsgKind.immediateBundle
    else if schedulerFull then MsgKind.backpressure
    else MsgKind.scheduledBundle
  else MsgKind.plainMessage

/-! ### Ring buffer writer (audio_processor.cpp lines 1033-1108,
shared_memory.h) -/

/-- `MESSAGE_MAGIC` (shared_memory.h line 223). -/
def MESSAGE_MAGIC : Nat := 0xDEADBEEF

/-- `PADDING_MAGIC` (shared_memory.h line 224). -/
def PADDING_MAGIC : Nat := 0xBADDCAFE

/-- `sizeof(Message)`: the 16-byte frame header. -/
def HEADER_SIZE : Nat := 16

/-- Little-endian bytes of a 32-bit value (WASM is little-endian). -/
def le32 (v : Nat) : List Nat :=
  [v % 256, v / 256 % 256, v / 65536 % 256, v / 16777216 % 256]

/-- The 16 bytes of a `Message` header.  The C struct's `_padding` field
is left uninitialized by `ring_buffer_write`; it is modelled as zero
(nothing in this file reads those four bytes). -/
def headerBytes (magic length sequence : Nat) : List Nat :=
  le32 magic ++ le32 length ++ le32 sequence ++ le32 0

/-- `memcpy` of a byte list into the modelled buffer at `pos` (the ring
writer always writes frames contiguously, so no wrap inside a write). -/
def writeBytes : (Nat → Nat) → Nat → List Nat → (Nat → Nat)
  | buf, _, [] => buf
  | buf, pos, b :: rest => writeBytes (Function.update buf pos b) (pos + 1) rest

/-- Little-endian 32-bit read from the modelled buffer. -/
def readLE32 (buf : Nat → Nat) (pos : Nat) : Nat :=
  buf pos + 256 * buf (pos + 1) + 65536 * buf (pos + 2) + 16777216 * buf (pos + 3)

/-- Producer-side state of one ring: byte contents, head and tail indices
(`atomic<int32_t>`, always in `[0, capacity)`), the per-ring sequence
counter (the `uint32` value stamped in a header is `seq % 2^32`), the
status-flags word, and the `messages_dropped` metric. -/
structure WriteRing where
  buf : Nat → Nat
  head : Nat
  tail : Nat
  seq : Nat
  statusFlags : Nat
  droppedCount : Nat

/-- `ring_buffer_write` (audio_processor.cpp lines 1033-1108).  The header
sequence is taken from the ring's counter via `fetch_add` BEFORE the
space check, so the counter advances even when the write fails.  Free
space is `(capacity - 1 - head + tail) % capacity`.  When the frame does
not fit contiguously, a padding-sentinel header is stamped (if at least 16
bytes remain) or the slack is zeroed, and the head wraps to 0. -/
def ring_buffer_write (capacity : Nat) (r : WriteRing) (data : List Nat) :
    Bool × WriteRing :=
  let len := HEADER_SIZE + data.length
  let stamped := r.seq % 2 ^ 32
  let r1 : WriteRing := { r with seq := r.seq + 1 }
  let available := (capacity - 1 - r1.head + r1.tail) % capacity
  if available < len then
    (false, { r1 with droppedCount := r1.droppedCount + 1,
                      statusFlags := r1.statusFlags ||| 1 })
  else
    let spaceToEnd := capacity - r1.head
    let bh : (Nat → Nat) × Nat :=
      if len > spaceToEnd then
        if spaceToEnd ≥ HEADER_SIZE then
          (writeBytes r1.buf r1.head (headerBytes PADDING_MAGIC 0 0), 0)
        else if spaceToEnd > 0 then
          (writeBytes r1.buf r1.head (List.replicate spaceToEnd 0), 0)
        else (r1.buf, 0)
      else (r1.buf, r1.head)
    let buf2 := writeBytes bh.1 bh.2 (headerBytes MESSAGE_MAGIC len stamped)
    let buf3 := writeBytes buf2 (bh.2 + HEADER_SIZE) data
    (true, { r1 with buf := buf3, head := (bh.2 + len) % capacity })

/-- One producer-side call: the payload to write and the consumer tail
index observed at that call (the consumer may have advanced it since the
previous call). -/
structure WriteCall where
  data : List Nat
  tailAtCall : Nat

/-- Run a sequence of `ring_buffer_write` calls, recording for each call
`some stampedSequence` when the frame was written and `none` when the
call failed. -/
def runWrites (capacity : Nat) (r : WriteRing) :
    List WriteCall → WriteRing × List (Option Nat)
  | [] => (r, [])
  | c :: rest =>
    let r0 : WriteRing := { r with tail := c.tailAtCall }
    let out := ring_buffer_write capacity r0 c.data
    let rec0 := runWrites capacity out.2 rest
    (rec0.1, (if out.1 then some (r0.seq % 2 ^ 32) else none) :: rec0.2)

/-- A fresh 64-byte ring used in the C5 example run. -/
def ring64 : WriteRing :=
  { buf := fun _ => 0, head := 0, tail := 0, seq := 0,
    statusFlags := 0, droppedCount := 0 }

/-- C5 example run: writes of 8, 60 and 8 payload bytes on a 64-byte
ring; the 60-byte payload (frame length 76) cannot fit. -/
def c5Calls : List WriteCall :=
  [⟨List.replicate 8 1, 0⟩, ⟨List.replicate 60 2, 0⟩, ⟨List.replicate 8 3, 0⟩]

/-! ### Inbound drain loop, one iteration (audio_processor.cpp
lines 509-655) -/

/-- `IN_BUFFER_SIZE` (shared_memory.h line 30). -/
def IN_BUFFER_SIZE : Nat := 786432

/-- `MAX_MESSAGE_SIZE = IN_BUFFER_SIZE - sizeof(Message)`
(shared_memory.h line 222). -/
def MAX_MESSAGE_SIZE : Nat := IN_BUFFER_SIZE - 16

/-- `SCHEDULER_SLOT_SIZE` (shared_memory.h line 230), used by the
`schedule_bundle` size pre-check. -/
def SCHEDULER_SLOT_SIZE : Int := 1024

/-- `(int32_t)` cast of a 32-bit value. -/
def toInt32 (v : Nat) : Int :=
  if v % 2 ^ 32 < 2 ^ 31 then ((v % 2 ^ 32 : Nat) : Int)
  else ((v % 2 ^ 32 : Nat) : Int) - 2 ^ 32

/-- `(int64_t)` cast of a 64-bit value (the OSC time tag). -/
def toInt64 (v : Nat) : Int :=
  if v % 2 ^ 64 < 2 ^ 63 then ((v % 2 ^ 64 : Nat) : Int)
  else ((v % 2 ^ 64 : Nat) : Int) - 2 ^ 64

/-- Circular little-endian 32-bit read of a header field at `tail + off`:
the C code memcpys the 16 header bytes in two parts when they straddle the
ring end, which equals reading bytes at `(tail + i) % IN_BUFFER_SIZE`. -/
def readHeader32 (buf : Nat → Nat) (tail off : Nat) : Nat :=
  buf ((tail + off) % IN_BUFFER_SIZE) +
    256 * buf ((tail + off + 1) % IN_BUFFER_SIZE) +
    65536 * buf ((tail + off + 2) % IN_BUFFER_SIZE) +
    16777216 * buf ((tail + off + 3) % IN_BUFFER_SIZE)

/-- Consumer-side state of the inbound drain loop: the tail index, the
file-scope gap detector `last_in_sequence`, and the counters it touches. -/
structure DrainState where
  tail : Nat
  lastInSequence : Int
  messagesDropped : Nat
  messagesProcessed : Nat
  sequenceGaps : Nat
  statusFlags : Nat
deriving DecidableEq

/-- What one drain iteration did with the frame at the tail. -/
inductive DrainAction where
  | droppedBadMagic
  | droppedFragmented
  | droppedOversize
  | dispatchedMessage (payload : List Nat)
  | dispatchedImmediateBundle (payload : List Nat)
  | scheduledFuture (payload : List Nat) (timetag : Nat)
  | backpressureBreak
deriving DecidableEq

/-- One iteration of the inbound drain loop of `process_audio`
(audio_processor.cpp lines 509-655): read and validate the 16-byte header
at the tail, run gap detection, copy the payload, and classify/dispatch
it.  There is NO padding-sentinel case: any magic other than
`MESSAGE_MAGIC` (including `PADDING_MAGIC`) takes the corrupted-header
path, advancing the tail by ONE byte and counting one dropped message.
The engine dispatch calls themselves are external; the scheduler `Add` of
a future bundle (via `schedule_bundle`, lines 226-244, with its
`SCHEDULER_SLOT_SIZE` pre-check) is modelled.  The scheduler depth/drop
metric stores and the rate-limited log lines are not modelled. -/
def inboundStep (buf : Nat → Nat) (st : DrainState) (sched : BundleScheduler) :
    DrainState × BundleScheduler × DrainAction :=
  let magic := readHeader32 buf st.tail 0
  let length := readHeader32 buf st.tail 4
  let sequence := readHeader32 buf st.tail 8
  if magic ≠ MESSAGE_MAGIC then
    ({ st with tail := (st.tail + 1) % IN_BUFFER_SIZE,
               messagesDropped := st.messagesDropped + 1 },
      sched, DrainAction.droppedBadMagic)
  else if length > MAX_MESSAGE_SIZE + HEADER_SIZE then
    ({ st with statusFlags := st.statusFlags ||| 8,
               tail := (st.tail + length) % IN_BUFFER_SIZE,
               messagesDropped := st.messagesDropped + 1 },
      sched, DrainAction.droppedFragmented)
  else
    -- uint32 subtraction: a length below 16 wraps to a huge payload size
    let payload_size := (length + 2 ^ 32 - HEADER_SIZE) % 2 ^ 32
    if payload_size > MAX_MESSAGE_SIZE then
      ({ st with tail := (st.tail + length) % IN_BUFFER_SIZE,
                 messagesDropped := st.messagesDropped + 1 },
        sched, DrainAction.droppedOversize)
    else
      -- gap detection (lines 562-578)
      let seqI : Int := toInt32 sequence
      let st1 :=
        if 0 ≤ st.lastInSequence then
          let expected : Int := (st.lastInSequence + 1) % 2 ^ 31
          if seqI ≠ expected then
            let gap : Int := ((seqI - expected + 2 ^ 31) % 2 ^ 32) % 2 ^ 31
            if 0 < gap ∧ gap < 1000 then
              { st with sequenceGaps := st.sequenceGaps + gap.toNat }
            else st
          else st
        else st
      let st2 := { st1 with lastInSequence := seqI }
      -- payload copy into the static scratch buffer (split reads are
      -- circular addressing)
      let payload := (List.range payload_size).map
        (fun i => buf ((st.tail + HEADER_SIZE + i) % IN_BUFFER_SIZE))
      if is_bundle payload then
        let timetag := extract_timetag payload
        if timetag = 0 ∨ timetag = 1 then
          ({ st2 with tail := (st.tail + length) % IN_BUFFER_SIZE,
                      messagesProcessed := st2.messagesProcessed + 1 },
            sched, DrainAction.dispatchedImmediateBundle payload)
        else if sched.IsFull then
          -- backpressure: rewind the gap detector, leave the tail, break
          ({ st2 with lastInSequence :=
                if sequence > 0 then toInt32 (sequence - 1) else -1 },
            sched, DrainAction.backpressureBreak)
        else
          let schedAfter :=
            if (payload_size : Int) > SCHEDULER_SLOT_SIZE then sched
            else (sched.Add (toInt64 timetag) payload (payload_size : Int)).2
          ({ st2 with tail := (st.tail + length) % IN_BUFFER_SIZE,
                      messagesProcessed := st2.messagesProcessed + 1 },
            schedAfter, DrainAction.scheduledFuture payload timetag)
      else
        ({ st2 with tail := (st.tail + length) % IN_BUFFER_SIZE,
                    messagesProcessed := st2.messagesProcessed + 1 },
          sched, DrainAction.dispatchedMessage payload)

/-- A buffer holding a padding-sentinel header (`PADDING_MAGIC`,
little-endian `FE CA DD BA`) at offset 32, zero elsewhere. -/
def c6Buf : Nat → Nat := fun i =>
  if i = 32 then 0xFE else if i = 33 then 0xCA
  else if i = 34 then 0xDD else if i = 35 then 0xBA else 0

/-- Drain state positioned at the sentinel. -/
def c6St : DrainState :=
  { tail := 32, lastInSequence := -1, messagesDropped := 0,
    messagesProcessed := 0, sequenceGaps := 0, statusFlags := 0 }

/-! ### Node-tree mirror (src/src/node_tree.cpp, shared_memory.h) -/

/-- `NODE_TREE_MIRROR_MAX_NODES` (shared_memory.h line 44). -/
def NODE_TREE_MIRROR_MAX_NODES : Nat := 1024

/-- `NT_HASH_CAPACITY` (node_tree.cpp line 38); the mask is 2047. -/
def NT_HASH_CAPACITY : Nat := 2048

/-- `NT_HASH_EMPTY = INT32_MIN`, the empty-bucket sentinel
(node_tree.cpp line 40). -/
def NT_HASH_EMPTY : Int := -2147483648

/-- `NodeEntry` (shared_memory.h lines 201-209); `id = -1` marks an empty
slot; `def_name` is the 32-byte name field. -/
structure NodeEntry where
  id : Int
  parent_id : Int
  is_group : Int
  prev_id : Int
  next_id : Int
  head_id : Int
  def_name : List Nat
deriving DecidableEq

/-- The engine `Node` as read by the mirror code: its id, and the ids
reachable through the `mParent`/`mPrev`/`mNext`/`mHead` pointers (`none`
models a null pointer), plus the group flag and the definition name
(`none` models a null `mDef`). -/
structure EngineNode where
  mID : Int
  mParentID : Option Int
  mIsGroup : Bool
  mPrevID : Option Int
  mNextID : Option Int
  mHeadID : Option Int
  mDefName : Option (List Nat)
deriving DecidableEq

/-- `NTHashEntry` (node_tree.cpp lines 42-45). -/
structure NTHashEntry where
  key : Int
  value : Int
deriving DecidableEq

/-- `nt_hash_func` (lines 50-56): uint32 integer-mixing hash, masked to
the 2048 buckets. -/
def nt_hash_func (key : Int) : Nat :=
  let h0 := (key % 4294967296).toNat
  let h1 := h0 ^^^ (h0 >>> 16)
  let h2 := (h1 * 0x45d9f3b) % 4294967296
  let h3 := h2 ^^^ (h2 >>> 16)
  h3 &&& 2047

/-- Linear-probe scan for `key` starting at `idx`, stopping at the first
empty bucket — the common loop of `nt_hash_find` and `nt_hash_remove`.
`fuel = 2048` visits every bucket once; the C loop would not terminate on
a full table with no match, which the invariant excludes. -/
def htFindAux (hash : Nat → NTHashEntry) (key : Int) : Nat → Nat → Option Nat
  | 0, _ => none
  | fuel + 1, idx =>
    if (hash idx).key = NT_HASH_EMPTY then none
    else if (hash idx).key = key then some idx
    else htFindAux hash key fuel ((idx + 1) &&& 2047)

/-- `nt_hash_find` (lines 67-74): the slot stored for `key`, `-1` when
absent. -/
def nt_hash_find (hash : Nat → NTHashEntry) (key : Int) : Int :=
  match htFindAux hash key NT_HASH_CAPACITY (nt_hash_func key) with
  | some b => (hash b).value
  | none => -1

/-- Linear-probe scan for the first empty bucket (loop of
`nt_hash_insert`, lines 58-65). -/
def htScanEmpty (hash : Nat → NTHashEntry) : Nat → Nat → Option Nat
  | 0, _ => none
  | fuel + 1, idx =>
    if (hash idx).key = NT_HASH_EMPTY then some idx
    else htScanEmpty hash fuel ((idx + 1) &&& 2047)

/-- `nt_hash_insert` (lines 58-65): write the pair into the first empty
bucket of the probe sequence (a full table would hang the C loop;
modelled as a no-op, unreachable under the load bound). -/
def nt_hash_insert (hash : Nat → NTHashEntry) (key value : Int) : Nat → NTHashEntry :=
  match htScanEmpty hash NT_HASH_CAPACITY (nt_hash_func key) with
  | some b => Function.update hash b { key := key, value := value }
  | none => hash

/-- Steps R2-R4 of the deletion loop (lines 85-95): advance `j` from the
gap at `i` over entries whose natural slot lies cyclically in `(i, j]`;
return the first entry that must move, or `none` at the first empty
bucket. -/
def htMoverSkip (i j r : Nat) : Prop :=
  if i ≤ j then i < r ∧ r ≤ j else i < r ∨ r ≤ j

instance (i j r : Nat) : Decidable (htMoverSkip i j r) := by
  unfold htMoverSkip
  infer_instance

def htScanMover (hash : Nat → NTHashEntry) (i : Nat) : Nat → Nat → Option Nat
  | 0, _ => none
  | fuel + 1, j =>
    if (hash j).key = NT_HASH_EMPTY then none
    else if htMoverSkip i j (nt_hash_func (hash j).key) then
      htScanMover hash i fuel ((j + 1) &&& 2047)
    else some j

/-- The backward-shift loop of `nt_hash_remove` (lines 81-99, Knuth
Algorithm R): empty bucket `i` (R1, the key is cleared, the value byte is
left as-is), find a mover `j` (R2-R4), copy it into `i` (R5) and continue
with `i := j`.  Each iteration empties one occupied bucket, so
`fuel = 2048` suffices. -/
def htShiftLoop : Nat → (Nat → NTHashEntry) → Nat → (Nat → NTHashEntry)
  | fuel, hash, i =>
    let h1 := Function.update hash i { key := NT_HASH_EMPTY, value := (hash i).value }
    match fuel with
    | 0 => h1
    | fuel + 1 =>
      match htScanMover h1 i 2047 ((i + 1) &&& 2047) with
      | none => h1
      | some j => htShiftLoop fuel (Function.update h1 i (h1 j)) j

/-- `nt_hash_remove` (lines 77-103): find the first probe-sequence bucket
holding `key` and run the backward shift from there. -/
def nt_hash_remove (hash : Nat → NTHashEntry) (key : Int) : Nat → NTHashEntry :=
  match htFindAux hash key NT_HASH_CAPACITY (nt_hash_func key) with
  | some b => htShiftLoop NT_HASH_CAPACITY hash b
  | none => hash

/-- `strncpy(dst, src, 31)` followed by `dst[31] = 0`: copy at most 31
bytes up to the source null, null-pad to the 32-byte field. -/
def strncpyName (src : List Nat) : List Nat :=
  let trunc := (src.takeWhile (fun b => b ≠ 0)).take 31
  trunc ++ List.replicate (32 - trunc.length) 0

/-- ASCII bytes of `"group"`. -/
def groupLit : List Nat := [103, 114, 111, 117, 112]

/-- ASCII bytes of `"unknown"`. -/
def unknownLit : List Nat := [117, 110, 107, 110, 111, 119, 110]

/-- The mirror state: the entry array, the three header counters
(`node_count` and `dropped_count` as values, `versionIncrements` counting
the `version.fetch_add(1)` calls — the u32 register holds this mod 2^32),
the free list (`nt_free_next`, `nt_free_head`) and the hash table. -/
structure NodeTreeState where
  entries : Nat → NodeEntry
  node_count : Nat
  versionIncrements : Nat
  dropped_count : Nat
  free_next : Nat → Int
  free_head : Int
  hash : Nat → NTHashEntry

/-- State after `init_memory` + `NodeTree_InitIndices`
(audio_processor.cpp lines 291-304, node_tree.cpp lines 110-122): entries
memset to 0xFF (every id field reads -1, names read 0xFF bytes), counters
zero, free list `0 → 1 → ... → 1023 → -1`, hash keys all empty (the value
halves are uninitialized in C; modelled as 0 — nothing reads them while
the key is empty). -/
def ntInit : NodeTreeState :=
  { entries := fun _ =>
      { id := -1, parent_id := -1, is_group := -1, prev_id := -1,
        next_id := -1, head_id := -1, def_name := List.replicate 32 255 },
    node_count := 0, versionIncrements := 0, dropped_count := 0,
    free_next := fun i => if i < 1023 then ((i + 1 : Nat) : Int) else -1,
    free_head := 0,
    hash := fun _ => { key := NT_HASH_EMPTY, value := 0 } }

/-- The recurring sibling/parent patch statement of node_tree.cpp: look a
slot up, and when the lookup succeeded (`slot >= 0`) rewrite one entry in
place via `f` (which never touches the `id` field). -/
def patchEntry (entries : Nat → NodeEntry) (slotI : Int) (f : NodeEntry → NodeEntry) :
    Nat → NodeEntry :=
  if 0 ≤ slotI then Function.update entries slotI.toNat (f (entries slotI.toNat))
  else entries

/-- The entry record filled by `NodeTree_Add` (node_tree.cpp
lines 153-175). -/
def addEntry (node : EngineNode) : NodeEntry :=
  { id := node.mID,
    parent_id := node.mParentID.getD (-1),
    is_group := if node.mIsGroup then 1 else 0,
    prev_id := node.mPrevID.getD (-1),
    next_id := node.mNextID.getD (-1),
    head_id := if node.mIsGroup then node.mHeadID.getD (-1) else (-1),
    def_name := if node.mIsGroup then strncpyName groupLit
                else strncpyName (node.mDefName.getD unknownLit) }

/-- `NodeTree_Add` (node_tree.cpp lines 138-209).  Pop a slot from the
free list (or count a drop when the mirror is full), fill the entry,
insert `(id → slot)` into the hash, patch the previous/next siblings and
the parent head pointer (the sibling lookups run against the hash that
already contains the new pair, as in the source), then bump `node_count`
and `version`. -/
def NodeTree_Add (s : NodeTreeState) (node : EngineNode) : NodeTreeState :=
  if s.free_head < 0 then
    { s with dropped_count := s.dropped_count + 1 }
  else
    let sl := s.free_head.toNat
    let ents1 := Function.update s.entries sl (addEntry node)
    let hash2 := nt_hash_insert s.hash node.mID (sl : Int)
    let ents3 :=
      match node.mPrevID with
      | some pid => patchEntry ents1 (nt_hash_find hash2 pid) (fun e => { e with next_id := node.mID })
      | none => ents1
    let ents4 :=
      match node.mNextID with
      | some nid => patchEntry ents3 (nt_hash_find hash2 nid) (fun e => { e with prev_id := node.mID })
      | none => ents3
    let ents5 :=
      match node.mParentID, node.mPrevID with
      | some parid, none => patchEntry ents4 (nt_hash_find hash2 parid) (fun e => { e with head_id := node.mID })
      | _, _ => ents4
    { entries := ents5,
      node_count := s.node_count + 1,
      versionIncrements := s.versionIncrements + 1,
      dropped_count := s.dropped_count,
      free_next := s.free_next,
      free_head := s.free_next sl,
      hash := hash2 }

/-- `NodeTree_Remove` (node_tree.cpp lines 215-270).  A node absent from
the hash was dropped on insert: decrement `dropped_count` when positive
and return.  Otherwise patch the sibling chain and the parent head
pointer (the C code reads the entry fields through a pointer, so each
patch reads the CURRENT field values), remove the hash pair, clear the
entry id, push the slot onto the free list, and update `node_count`
(guarded) and `version`. -/
def NodeTree_Remove (s : NodeTreeState) (nodeId : Int) : NodeTreeState :=
  let slot := nt_hash_find s.hash nodeId
  if slot < 0 then
    if s.dropped_count > 0 then { s with dropped_count := s.dropped_count - 1 } else s
  else
    let sl := slot.toNat
    let ents1 :=
      if (s.entries sl).prev_id ≠ -1 then
        patchEntry s.entries (nt_hash_find s.hash ((s.entries sl).prev_id)) (fun e => { e with next_id := (s.entries sl).next_id })
      else s.entries
    let ents2 :=
      if (ents1 sl).next_id ≠ -1 then
        patchEntry ents1 (nt_hash_find s.hash ((ents1 sl).next_id)) (fun e => { e with prev_id := (ents1 sl).prev_id })
      else ents1
    let ents3 :=
      if (ents2 sl).parent_id ≠ -1 ∧ (ents2 sl).prev_id = -1 then
        patchEntry ents2 (nt_hash_find s.hash ((ents2 sl).parent_id)) (fun e => { e with head_id := (ents2 sl).next_id })
      else ents2
    let ents5 := Function.update ents3 sl ({ ents3 sl with id := -1 })
    { entries := ents5,
      node_count := if s.node_count > 0 then s.node_count - 1 else s.node_count,
      versionIncrements := s.versionIncrements + 1,
      dropped_count := s.dropped_count,
      free_next := Function.update s.free_next sl s.free_head,
      free_head := (sl : Int),
      hash := nt_hash_remove s.hash nodeId }

/-- `NodeTree_Update` (node_tree.cpp lines 273-346).  A node absent from
the hash is added; otherwise its position fields are rewritten in place,
the old and new neighbours are patched (the old-parent patch additionally
checks `head_id == node->mID`; writing the entry back unchanged when that
check fails is the same state), and `version` is bumped (`node_count` is
untouched). -/
def NodeTree_Update (s : NodeTreeState) (node : EngineNode) : NodeTreeState :=
  let slot := nt_hash_find s.hash node.mID
  if slot < 0 then NodeTree_Add s node
  else
    let sl := slot.toNat
    let oldPrevId := (s.entries sl).prev_id
    let oldNextId := (s.entries sl).next_id
    let oldParentId := (s.entries sl).parent_id
    let e1 := { s.entries sl with
      parent_id := node.mParentID.getD (-1),
      prev_id := node.mPrevID.getD (-1),
      next_id := node.mNextID.getD (-1) }
    let e2 := if node.mIsGroup then { e1 with head_id := node.mHeadID.getD (-1) } else e1
    let ents1 := Function.update s.entries sl e2
    let ents2 :=
      if oldPrevId ≠ -1 then
        patchEntry ents1 (nt_hash_find s.hash oldPrevId) (fun e => { e with next_id := oldNextId })
      else ents1
    let ents3 :=
      if oldNextId ≠ -1 then
        patchEntry ents2 (nt_hash_find s.hash oldNextId) (fun e => { e with prev_id := oldPrevId })
      else ents2
    let ents4 :=
      if oldParentId ≠ -1 ∧ oldPrevId = -1 then
        patchEntry ents3 (nt_hash_find s.hash oldParentId) (fun e => if e.head_id = node.mID then { e with head_id := oldNextId } else e)
      else ents3
    let ents5 :=
      match node.mPrevID with
      | some pid => patchEntry ents4 (nt_hash_find s.hash pid) (fun e => { e with next_id := node.mID })
      | none => ents4
    let ents6 :=
      match node.mNextID with
      | some nid => patchEntry ents5 (nt_hash_find s.hash nid) (fun e => { e with prev_id := node.mID })
      | none => ents5
    let ents7 :=
      match node.mParentID, node.mPrevID with
      | some parid, none => patchEntry ents6 (nt_hash_find s.hash parid) (fun e => { e with head_id := node.mID })
      | _, _ => ents6
    { s with entries := ents7, versionIncrements := s.versionIncrements + 1 }

/-- A node-lifecycle event driven from the engine. -/
inductive NTOp where
  | addNode (node : EngineNode)
  | removeNode (nodeId : Int)
  | updateNode (node : EngineNode)
deriving DecidableEq

/-- Run a sequence of mirror operations. -/
def runNT : NodeTreeState → List NTOp → NodeTreeState
  | s, [] => s
  | s, NTOp.addNode n :: rest => runNT (NodeTree_Add s n) rest
  | s, NTOp.removeNode i :: rest => runNT (NodeTree_Remove s i) rest
  | s, NTOp.updateNode n :: rest => runNT (NodeTree_Update s n) rest

/-- A lifecycle event carries a real node id, i.e. never the empty-slot
sentinel `-1` (spec 3.5: `id: i32 (−1 when slot empty)`; node ids of live
engine nodes are distinct from the sentinel). -/
def opIdOk : NTOp → Prop
  | NTOp.addNode n => n.mID ≠ -1
  | NTOp.removeNode _ => True
  | NTOp.updateNode n => n.mID ≠ -1

instance (op : NTOp) : Decidable (opIdOk op) := by
  cases op <;> (unfold opIdOk; infer_instance)

/-- Number of mirror entries whose id is not the empty sentinel. -/
def countInUse (entries : Nat → NodeEntry) : Nat :=
  ((Finset.range NODE_TREE_MIRROR_MAX_NODES).filter (fun i => (entries i).id ≠ -1)).card

/-- `inUseCount s`: entries of the mirror with `id ≠ -1`. -/
def inUseCount (s : NodeTreeState) : Nat := countInUse s.entries

/-- The free list as represented by `free_next`/`free_head`: the chain of
slots starting at `head` and ending at `-1`. -/
def FreeListRep (next : Nat → Int) : Int → List Nat → Prop
  | head, [] => head = -1
  | head, a :: rest =>
    head = (a : Int) ∧ a < NODE_TREE_MIRROR_MAX_NODES ∧ FreeListRep next (next a) rest

/-! ### Mirror-consistency invariant -/

/-- The C8 invariant: `node_count` equals the number of entries with
`id ≠ -1`; the version counter has been incremented at least `node_count`
times; the free list is a duplicate-free chain of empty in-range slots;
every occupied hash bucket stores a live in-range slot holding the key;
no two occupied buckets store the same slot. -/
structure NTInv (s : NodeTreeState) : Prop where
  countEq : s.node_count = inUseCount s
  verGe : s.node_count ≤ s.versionIncrements
  freeRep : ∃ L : List Nat, FreeListRep s.free_next s.free_head L ∧ L.Nodup ∧
    ∀ a ∈ L, (s.entries a).id = -1
  hashSound : ∀ b, (s.hash b).key ≠ NT_HASH_EMPTY →
    (s.hash b).key ≠ -1 ∧ 0 ≤ (s.hash b).value ∧
    (s.hash b).value < (NODE_TREE_MIRROR_MAX_NODES : Int) ∧
    (s.entries (s.hash b).value.toNat).id = (s.hash b).key
  hashInj : ∀ b1 b2, b1 ≠ b2 → (s.hash b1).key ≠ NT_HASH_EMPTY →
    (s.hash b2).key ≠ NT_HASH_EMPTY → (s.hash b1).value ≠ (s.hash b2).value

/-- A concrete operation sequence for the C8 witness: add node 1000, add
node 7 under it, remove node 1000, update node 7. -/
def c8Ops : List NTOp :=
  [NTOp.addNode ⟨1000, none, true, none, none, none, none⟩,
   NTOp.addNode ⟨7, some 1000, false, none, none, none, some [115, 105, 110, 101]⟩,
   NTOp.removeNode 1000,
   NTOp.updateNode ⟨7, none, false, none, none, none, none⟩]

/-! ### Audio capture egress (audio_processor.cpp lines 804-830) -/

/-- `QUANTUM_SIZE` (audio_processor.cpp line 658). -/
def QUANTUM_SIZE : Nat := 128

/-- `AUDIO_CAPTURE_FRAMES = AUDIO_CAPTURE_SAMPLE_RATE * AUDIO_CAPTURE_SECONDS`
(shared_memory.h lines 53-56). -/
def AUDIO_CAPTURE_FRAMES : Nat := 48000

/-- `AUDIO_CAPTURE_CHANNELS` (shared_memory.h line 54). -/
def AUDIO_CAPTURE_CHANNELS : Nat := 2

/-- The audio-capture region: the header fields `enabled` and `head`
(`AudioCaptureHeader`), the interleaved sample area `audio_capture_data`,
and the function-static `logged_buffer_full` flag of `process_audio`.
Sample values (floats in the source) are moved opaquely by the capture
code, so they are modelled by their 32-bit payload as `Int`. -/
structure CaptureState where
  enabled : Nat
  head : Nat
  data : Nat → Int
  loggedBufferFull : Bool

/-- The interleaving double loop (audio_processor.cpp lines 815-820):
`for frame < QUANTUM_SIZE` and `for ch` while `ch < channels && ch <
AUDIO_CAPTURE_CHANNELS` (i.e. `ch < min channels AUDIO_CAPTURE_CHANNELS`),
write `audio_capture_data[(head+frame)*AUDIO_CAPTURE_CHANNELS+ch] =
static_audio_bus[ch*QUANTUM_SIZE+frame]`. -/
def captureWrite (data : Nat → Int) (head : Nat) (bus : Nat → Int)
    (numOutputs : Nat) : Nat → Int :=
  (List.range QUANTUM_SIZE).foldl (fun d frame => (List.range (min numOutputs AUDIO_CAPTURE_CHANNELS)).foldl (fun d ch => Function.update d ((head + frame) * AUDIO_CAPTURE_CHANNELS + ch) (bus (ch * QUANTUM_SIZE + frame))) d) data

/-- The capture block of one `process_audio` call (audio_processor.cpp
lines 804-830). `bus` is `static_audio_bus` (channel-major), `numOutputs`
is `g_world->mNumOutputs` (the source's local aliases `head`, `channels`
and `frames_to_copy` are inlined). Returns the new capture state and
whether this call emitted the `[AudioCapture] Buffer full` log line. -/
def captureStep (cap : CaptureState) (bus : Nat → Int) (numOutputs : Nat) :
    CaptureState × Bool :=
  if cap.enabled ≠ 0 then
    if cap.head + QUANTUM_SIZE ≤ AUDIO_CAPTURE_FRAMES then
      ({ cap with data := captureWrite cap.data cap.head bus numOutputs, head := cap.head + QUANTUM_SIZE }, false)
    else
      if cap.loggedBufferFull = false then
        ({ cap with loggedBufferFull := true }, true)
      else (cap, false)
  else (cap, false)

/-- Run the capture block over successive quanta (each with its bus
contents and output count), counting emitted log lines. -/
def runCapture : CaptureState → List ((Nat → Int) × Nat) → CaptureState × Nat
  | cap, [] => (cap, 0)
  | cap, q :: rest =>
    ((runCapture (captureStep cap q.1 q.2).1 rest).1,
     (if (captureStep cap q.1 q.2).2 then 1 else 0) +
       (runCapture (captureStep cap q.1 q.2).1 rest).2)

/-- A concrete capture state for the C9 witness: enabled, head 0, flag
clear. -/
def c9w : CaptureState :=
  { enabled := 1, head := 0, data := fun _ => 0, loggedBufferFull := false }

/-- A concrete bus for the C9 witness: sample `i` holds value `i`. -/
def c9wBus : Nat → Int := fun i => (i : Int)

/-! ### Pre-initialization render guard (audio_processor.cpp lines 443-451) -/

/-- The state touched by `process_audio`: the `memory_initialized` flag
and every region the claim enumerates - the inbound ring (bytes plus its
control-block head/tail and consumer-side drain counters), the outbound
and debug writer rings (each bundling its buffer, head/tail, sequence
counter, status flags and drop counter), the metrics block, the node-tree
mirror, the time fields (`ntp_start_time`, drift and global offsets,
modelled by their raw bit patterns), the audio-capture region, and the
bundle scheduler. -/
structure SystemState where
  memoryInitialized : Bool
  inBuf : Nat → Nat
  inHead : Nat
  inDrain : DrainState
  outRing : WriteRing
  dbgRing : WriteRing
  metrics : Nat → Nat
  nodeTree : NodeTreeState
  timeFields : Nat → Int
  capture : CaptureState
  sched : BundleScheduler

/-- `process_audio` (audio_processor.cpp line 444): its FIRST statement is
`if (!memory_initialized) return true;` (lines 445-447), before any other
read or write. Everything after the guard (metrics, drain, dispatch,
render, capture) is abstracted by `rest`, so the guard property holds
whatever the remainder of the function does. -/
def processAudio (rest : SystemState → Bool × SystemState)
    (st : SystemState) : Bool × SystemState :=
  if st.memoryInitialized = false then (true, st)
  else rest st

/-- A concrete uninitialised system state for the C10 witness. -/
def c10st : SystemState :=
  { memoryInitialized := false,
    inBuf := fun _ => 0,
    inHead := 0,
    inDrain := ⟨0, -1, 0, 0, 0, 0⟩,
    outRing := ⟨fun _ => 0, 0, 0, 0, 0, 0⟩,
    dbgRing := ⟨fun _ => 0, 0, 0, 0, 0, 0⟩,
    metrics := fun _ => 0,
    nodeTree := ntInit,
    timeFields := fun _ => 0,
    capture := ⟨0, 0, fun _ => 0, false⟩,
    sched := sched0 }

/-- A concrete (state-mutating) remainder for the C10 witness. -/
def c10rest : SystemState → Bool × SystemState :=
  fun st => (false, { st with metrics := fun _ => 1, inHead := st.inHead + 16 })

/-! ### Scheduler invariant and ordering lemmas -/

/-- `pairLt` is transitive. -/
theorem pairLt_trans {a b c : Int × Int} (h1 : pairLt a b) (h2 : pairLt b c) : pairLt a c := by
  unfold pairLt at *
  rcases h1 with h1 | ⟨h1, h1'⟩ <;> rcases h2 with h2 | ⟨h2, h2'⟩
  · exact Or.inl (h1.trans h2)
  · exact Or.inl (h2 ▸ h1)
  · exact Or.inl (h1 ▸ h2)
  · exact Or.inr ⟨h1.trans h2, h1'.trans h2'⟩

/-- Keys with distinct stability components are comparable by `pairLt`. -/
theorem pairLt_total_of_stab_ne {a b : Int × Int} (h : a.2 ≠ b.2) :
    pairLt a b ∨ pairLt b a := by
  unfold pairLt
  rcases lt_trichotomy a.1 b.1 with ht | ht | ht
  · exact Or.inl (Or.inl ht)
  · rcases lt_or_gt_of_ne h with hs | hs
    · exact Or.inl (Or.inr ⟨ht, hs⟩)
    · exact Or.inr (Or.inr ⟨ht.symm, hs⟩)
  · exact Or.inr (Or.inl ht)

/-- `QueueEntry.ltE` decides `pairLt` on the entry keys. -/
theorem ltE_iff_pairLt (a b : QueueEntry) :
    QueueEntry.ltE a b = true ↔ pairLt (entryKey a) (entryKey b) := by
  unfold QueueEntry.ltE pairLt entryKey
  by_cases h1 : a.time < b.time
  · simp [h1]
  · by_cases h2 : a.time > b.time
    · simp [h1, h2]
      omega
    · simp [h1, h2]
      omega

/-- `insertEntry` yields a permutation of consing the new entry. -/
theorem insertEntry_perm (e : QueueEntry) (l : List QueueEntry) :
    (insertEntry e l).Perm (e :: l) := by
  induction l with
  | nil => simp [insertEntry]
  | cons x xs ih =>
    unfold insertEntry
    by_cases h : QueueEntry.ltE e x
    · simp [h]
    · simp only [h, if_neg, Bool.false_eq_true, not_false_eq_true, ite_false]
      exact (ih.cons x).trans (List.Perm.swap e x xs)

theorem mem_insertEntry {y e : QueueEntry} {l : List QueueEntry} :
    y ∈ insertEntry e l ↔ y = e ∨ y ∈ l := by
  rw [(insertEntry_perm e l).mem_iff]
  simp

/-- Inserting an entry whose stability differs from every queued entry
preserves strict sortedness by `(time, stability)`. -/
theorem insertEntry_pairwise {e : QueueEntry} {l : List QueueEntry}
    (hl : l.Pairwise (fun a b => pairLt (entryKey a) (entryKey b)))
    (hne : ∀ x ∈ l, x.stabilityCount ≠ e.stabilityCount) :
    (insertEntry e l).Pairwise (fun a b => pairLt (entryKey a) (entryKey b)) := by
  induction l with
  | nil => simp [insertEntry]
  | cons x xs ih =>
    rcases List.pairwise_cons.mp hl with ⟨hx, hxs⟩
    unfold insertEntry
    by_cases h : QueueEntry.ltE e x
    · simp only [h, ite_true]
      have hex : pairLt (entryKey e) (entryKey x) := (ltE_iff_pairLt e x).mp h
      refine List.pairwise_cons.mpr ⟨?_, hl⟩
      intro y hy
      rcases List.mem_cons.mp hy with rfl | hy
      · exact hex
      · exact pairLt_trans hex (hx y hy)
    · simp only [h, Bool.false_eq_true, if_false]
      have hxe : pairLt (entryKey x) (entryKey e) := by
        have hnot : ¬ pairLt (entryKey e) (entryKey x) := by
          intro hc
          exact h ((ltE_iff_pairLt e x).mpr hc)
        rcases pairLt_total_of_stab_ne (a := entryKey x) (b := entryKey e)
            (hne x (List.mem_cons_self x xs)) with h' | h'
        · exact h'
        · exact absurd h' hnot
      refine List.pairwise_cons.mpr ⟨?_, ih hxs (fun y hy => hne y (List.mem_cons_of_mem x hy))⟩
      intro y hy
      rcases mem_insertEntry.mp hy with rfl | hy
      · exact hxe
      · exact hx y hy

theorem schedInv_sched0 : SchedInv sched0 := by
  refine ⟨?_, ?_, ?_, ?_, ?_⟩ <;> simp [sched0, bundleDefault]

/-- Under the invariant, a scheduler whose queue is not at capacity always
finds a free pool slot. -/
theorem allocateSlot_isSome {s : BundleScheduler} (hInv : SchedInv s)
    (hlen : s.mQueue.length < MAX_SCHEDULED_BUNDLES) :
    s.AllocateSlot.isSome := by
  obtain ⟨-, -, -, hUse, hNodup⟩ := hInv
  rw [BundleScheduler.AllocateSlot, List.find?_isSome]
  by_contra hnone
  push_neg at hnone
  have hall : ∀ i < MAX_SCHEDULED_BUNDLES, (s.mPool i).mInUse = true := by
    intro i hi
    have := hnone i (List.mem_range.mpr hi)
    simpa using this
  -- every index below capacity appears among the queued pool indices
  have hsub : (Finset.range MAX_SCHEDULED_BUNDLES).image (fun (i : Nat) => (i : Int)) ⊆
      (s.mQueue.map QueueEntry.poolIndex).toFinset := by
    intro x hx
    simp only [Finset.mem_image, Finset.mem_range] at hx
    obtain ⟨i, hi, rfl⟩ := hx
    obtain ⟨e, he, hei⟩ := (hUse i hi).mp (hall i hi)
    simp only [List.mem_toFinset, List.mem_map]
    exact ⟨e, he, hei⟩
  have hcard1 : ((Finset.range MAX_SCHEDULED_BUNDLES).image (fun (i : Nat) => (i : Int))).card =
      MAX_SCHEDULED_BUNDLES := by
    rw [Finset.card_image_of_injective _ (fun a b h => by exact_mod_cast h)]
    exact Finset.card_range _
  have hcard2 : (s.mQueue.map QueueEntry.poolIndex).toFinset.card ≤ s.mQueue.length := by
    calc (s.mQueue.map QueueEntry.poolIndex).toFinset.card
        ≤ (s.mQueue.map QueueEntry.poolIndex).length := List.toFinset_card_le _
      _ = s.mQueue.length := List.length_map _ _
  have := Finset.card_le_card hsub
  omega

/-- Effect of a successful `Add` under the invariant: the invariant is
preserved, the counter advances by one, the queue grows by the entry
`(time, counter)`. -/
theorem add_preserves_inv {s : BundleScheduler} (hInv : SchedInv s)
    (hlen : s.mQueue.length < MAX_SCHEDULED_BUNDLES) (t : Int) (d : List Nat) (sz : Int) :
    (s.Add t d sz).1 = true ∧
    SchedInv (s.Add t d sz).2 ∧
    (s.Add t d sz).2.mStabilityCounter = s.mStabilityCounter + 1 ∧
    (s.Add t d sz).2.mQueue.length = s.mQueue.length + 1 ∧
    ((s.Add t d sz).2.mQueue.map entryKey).Perm
      ((t, s.mStabilityCounter) :: s.mQueue.map entryKey) := by
  obtain hSome := allocateSlot_isSome hInv hlen
  obtain ⟨slot, hslot⟩ := Option.isSome_iff_exists.mp hSome
  obtain ⟨hSorted, hStab, hMatch, hUse, hNodup⟩ := hInv
  have hfree : (s.mPool slot).mInUse = false := by
    have := List.find?_some hslot
    simpa using this
  have hslot128 : slot < MAX_SCHEDULED_BUNDLES :=
    List.mem_range.mp (List.mem_of_find?_eq_some hslot)
  have hnotq : ∀ e ∈ s.mQueue, e.poolIndex ≠ (slot : Int) := by
    intro e he hei
    have : (s.mPool slot).mInUse = true := (hUse slot hslot128).mpr ⟨e, he, hei⟩
    rw [hfree] at this
    exact Bool.false_ne_true this
  have hAdd : s.Add t d sz =
      (true,
        { mPool := Function.update s.mPool slot
            ((s.mPool slot).Init t d sz s.mStabilityCounter),
          mQueue := insertEntry
            { time := t, stabilityCount := s.mStabilityCounter, poolIndex := (slot : Int) }
            s.mQueue,
          mStabilityCounter := s.mStabilityCounter + 1 }) := by
    rw [BundleScheduler.Add]
    rw [if_neg (by omega)]
    rw [hslot]
    rfl
  set entry : QueueEntry :=
    { time := t, stabilityCount := s.mStabilityCounter, poolIndex := (slot : Int) } with hentry
  rw [hAdd]
  dsimp only
  unfold SchedInv
  dsimp only
  have hqperm := insertEntry_perm entry s.mQueue
  have hmemq : ∀ {y : QueueEntry}, y ∈ insertEntry entry s.mQueue ↔ y = entry ∨ y ∈ s.mQueue :=
    fun {y} => mem_insertEntry
  refine ⟨rfl, ⟨?_, ?_, ?_, ?_, ?_⟩, rfl, ?_, ?_⟩
  · -- sortedness
    exact insertEntry_pairwise hSorted (by
      intro x hx
      have := hStab x hx
      simp only [hentry]
      omega)
  · -- stabilities below the new counter
    intro e he
    rcases hmemq.mp he with rfl | he
    · exact lt_add_one _
    · have := hStab e he
      omega
  · -- pool slots match queued entries
    intro e he
    rcases hmemq.mp he with rfl | he
    · refine ⟨by simp [hentry], by simp [hentry]; exact_mod_cast hslot128, ?_, ?_⟩ <;>
        simp [hentry, Int.toNat_natCast, Function.update_same, ScheduledBundle.Init]
    · obtain ⟨h0, h1, h2, h3⟩ := hMatch e he
      have hne : e.poolIndex.toNat ≠ slot := by
        intro hc
        apply hnotq e he
        omega
      refine ⟨h0, h1, ?_, ?_⟩ <;>
      · rw [Function.update_noteq hne]
        first
        | exact h2
        | exact h3
  · -- pool usage mirrors queue membership
    intro i hi
    by_cases hieq : i = slot
    · subst hieq
      constructor
      · intro _
        exact ⟨entry, hmemq.mpr (Or.inl rfl), rfl⟩
      · intro _
        simp [Function.update_same, ScheduledBundle.Init]
    · have : Function.update s.mPool slot
          ((s.mPool slot).Init t d sz s.mStabilityCounter) i = s.mPool i :=
        Function.update_noteq hieq _ _
      rw [this]
      rw [hUse i hi]
      constructor
      · rintro ⟨e, he, hei⟩
        exact ⟨e, hmemq.mpr (Or.inr he), hei⟩
      · rintro ⟨e, he, hei⟩
        rcases hmemq.mp he with rfl | he
        · exfalso
          apply hieq
          have : ((slot : Int)) = (i : Int) := hei
          exact_mod_cast this.symm
        · exact ⟨e, he, hei⟩
  · -- pool indices stay distinct
    have hperm2 : ((insertEntry entry s.mQueue).map QueueEntry.poolIndex).Perm
        (entry.poolIndex :: s.mQueue.map QueueEntry.poolIndex) := hqperm.map _
    rw [hperm2.nodup_iff]
    refine List.nodup_cons.mpr ⟨?_, hNodup⟩
    intro hc
    obtain ⟨e, he, hei⟩ := List.mem_map.mp hc
    exact hnotq e he hei
  · -- queue length grows by one
    simpa using hqperm.length_eq
  · -- queue keys grow by the stamped key
    have := hqperm.map entryKey
    simpa [hentry, entryKey] using this

/-- Running `n` adds from a state with headroom keeps the invariant,
advances the counter by `n`, and adds exactly the stamped keys. -/
theorem runAdds_inv : ∀ (l : List AddReq) (s : BundleScheduler), SchedInv s →
    s.mQueue.length + l.length ≤ MAX_SCHEDULED_BUNDLES →
    SchedInv (runAdds s l) ∧
    (runAdds s l).mStabilityCounter = s.mStabilityCounter + l.length ∧
    (runAdds s l).mQueue.length = s.mQueue.length + l.length ∧
    ((runAdds s l).mQueue.map entryKey).Perm
      (stampKeys s.mStabilityCounter l ++ s.mQueue.map entryKey) := by
  intro l
  induction l with
  | nil =>
    intro s hInv _
    exact ⟨hInv, by simp [runAdds], by simp [runAdds], by simp [runAdds, stampKeys]⟩
  | cons a rest ih =>
    intro s hInv hlen
    have hlt : s.mQueue.length < MAX_SCHEDULED_BUNDLES := by
      simp only [List.length_cons] at hlen
      omega
    obtain ⟨-, hInv', hctr, hqlen, hperm⟩ := add_preserves_inv hInv hlt a.time a.data a.size
    have hstep : runAdds s (a :: rest) = runAdds (s.Add a.time a.data a.size).2 rest := rfl
    have hlen' : (s.Add a.time a.data a.size).2.mQueue.length + rest.length ≤
        MAX_SCHEDULED_BUNDLES := by
      rw [hqlen]
      simp only [List.length_cons] at hlen
      omega
    obtain ⟨hInv2, hctr2, hlen2, hperm2⟩ := ih (s.Add a.time a.data a.size).2 hInv' hlen'
    refine ⟨hstep ▸ hInv2, ?_, ?_, ?_⟩
    · rw [hstep, hctr2, hctr]
      simp
      omega
    · rw [hstep, hlen2, hqlen]
      simp
      omega
    · rw [hstep]
      refine hperm2.trans ?_
      rw [hctr]
      have h1 : (stampKeys (s.mStabilityCounter + 1) rest ++
          List.map entryKey (s.Add a.time a.data a.size).2.mQueue).Perm
          (stampKeys (s.mStabilityCounter + 1) rest ++
            ((a.time, s.mStabilityCounter) :: List.map entryKey s.mQueue)) :=
        List.Perm.append_left _ hperm
      refine h1.trans ?_
      rw [show stampKeys s.mStabilityCounter (a :: rest) =
        (a.time, s.mStabilityCounter) :: stampKeys (s.mStabilityCounter + 1) rest from rfl]
      exact List.perm_middle

theorem dispatchPre_of_schedInv {s : BundleScheduler} (h : SchedInv s) : DispatchPre s :=
  ⟨h.1, h.2.2.1, h.2.2.2.2⟩

/-- `Remove` on a non-empty queue with an in-range head index pops the head. -/
theorem remove_cons {s : BundleScheduler} {e : QueueEntry} {rest : List QueueEntry}
    (hq : s.mQueue = e :: rest) (h0 : 0 ≤ e.poolIndex)
    (h1 : e.poolIndex < (MAX_SCHEDULED_BUNDLES : Int)) :
    s.Remove = (some e.poolIndex.toNat, { s with mQueue := rest }) := by
  rw [BundleScheduler.Remove, hq]
  dsimp only
  rw [if_pos ⟨h0, h1⟩]

/-- Draining returns exactly the queued keys, in queue order. -/
theorem drainLoop_keys : ∀ (fuel : Nat) (s : BundleScheduler),
    s.mQueue.length = fuel →
    (∀ e ∈ s.mQueue, 0 ≤ e.poolIndex ∧ e.poolIndex < (MAX_SCHEDULED_BUNDLES : Int) ∧
      (s.mPool e.poolIndex.toNat).mTime = e.time ∧
      (s.mPool e.poolIndex.toNat).mStabilityCount = e.stabilityCount) →
    (drainLoop fuel s).map bundleKey = s.mQueue.map entryKey := by
  intro fuel
  induction fuel with
  | zero =>
    intro s hlen _
    rw [List.length_eq_zero] at hlen
    simp [drainLoop, hlen]
  | succ n ih =>
    intro s hlen hmatch
    obtain ⟨e, rest, hq⟩ : ∃ e rest, s.mQueue = e :: rest := by
      cases hq : s.mQueue with
      | nil => rw [hq] at hlen; simp at hlen
      | cons e rest => exact ⟨e, rest, rfl⟩
    have hrange := hmatch e (by rw [hq]; exact List.mem_cons_self _ _)
    have hrem := remove_cons hq hrange.1 hrange.2.1
    rw [drainLoop, hrem]
    have hlen' : ({ s with mQueue := rest } : BundleScheduler).mQueue.length = n := by
      dsimp only
      rw [hq] at hlen
      simpa using hlen
    have hmatch' : ∀ e' ∈ ({ s with mQueue := rest } : BundleScheduler).mQueue,
        0 ≤ e'.poolIndex ∧ e'.poolIndex < (MAX_SCHEDULED_BUNDLES : Int) ∧
        (({ s with mQueue := rest } : BundleScheduler).mPool e'.poolIndex.toNat).mTime =
          e'.time ∧
        (({ s with mQueue := rest } : BundleScheduler).mPool e'.poolIndex.toNat).mStabilityCount =
          e'.stabilityCount := by
      intro e' he'
      exact hmatch e' (by rw [hq]; exact List.mem_cons_of_mem _ he')
    rw [List.map_cons, ih _ hlen' hmatch']
    rw [hq, List.map_cons]
    dsimp only
    rw [bundleKey, entryKey, hrange.2.2.1, hrange.2.2.2]

/-- The dispatch loop emits exactly the queued keys whose time components
are at most the bound, in queue order. -/
theorem dispatchLoop_keys : ∀ (fuel : Nat) (s : BundleScheduler) (bound : Int),
    s.mQueue.length = fuel → DispatchPre s →
    (dispatchLoop fuel s bound).1.map bundleKey =
      (s.mQueue.map entryKey).filter (fun k => decide (k.1 ≤ bound)) := by
  intro fuel
  induction fuel with
  | zero =>
    intro s bound hlen _
    rw [List.length_eq_zero] at hlen
    simp [dispatchLoop, hlen]
  | succ n ih =>
    intro s bound hlen hpre
    obtain ⟨hSorted, hMatch, hNodup⟩ := hpre
    obtain ⟨e, rest, hq⟩ : ∃ e rest, s.mQueue = e :: rest := by
      cases hq : s.mQueue with
      | nil => rw [hq] at hlen; simp at hlen
      | cons e rest => exact ⟨e, rest, rfl⟩
    have hnext : s.NextTime = e.time := by
      rw [BundleScheduler.NextTime, hq]
    have hrange := hMatch e (by rw [hq]; exact List.mem_cons_self _ _)
    by_cases hle : e.time ≤ bound
    · -- the head is due: it is popped, released, and the loop continues
      have hrem := remove_cons hq hrange.1 hrange.2.1
      rw [dispatchLoop, if_pos (by rw [hnext]; exact hle), hrem]
      set s1 : BundleScheduler := { s with mQueue := rest } with hs1
      set s2 := s1.ReleaseSlot e.poolIndex.toNat with hs2
      have hs2q : s2.mQueue = rest := rfl
      have hnd : ∀ e' ∈ rest, e'.poolIndex.toNat ≠ e.poolIndex.toNat := by
        intro e' he' hc
        rw [hq] at hNodup
        rw [List.map_cons, List.nodup_cons] at hNodup
        apply hNodup.1
        have : e'.poolIndex = e.poolIndex := by
          have h1 := (hMatch e' (by rw [hq]; exact List.mem_cons_of_mem _ he')).1
          have h2 := hrange.1
          omega
        rw [← this]
        exact List.mem_map.mpr ⟨e', he', rfl⟩
      have hpre2 : DispatchPre s2 := by
        refine ⟨?_, ?_, ?_⟩
        · rw [hs2q]
          rw [hq] at hSorted
          exact (List.pairwise_cons.mp hSorted).2
        · intro e' he'
          rw [hs2q] at he'
          obtain ⟨h0, h1, h2, h3⟩ := hMatch e' (by rw [hq]; exact List.mem_cons_of_mem _ he')
          have hpool : s2.mPool e'.poolIndex.toNat = s.mPool e'.poolIndex.toNat := by
            rw [hs2, BundleScheduler.ReleaseSlot]
            exact Function.update_noteq (hnd e' he') _ _
          exact ⟨h0, h1, by rw [hpool]; exact h2, by rw [hpool]; exact h3⟩
        · rw [hs2q]
          rw [hq, List.map_cons, List.nodup_cons] at hNodup
          exact hNodup.2
      have hlen2 : s2.mQueue.length = n := by
        rw [hs2q]
        rw [hq] at hlen
        simpa using hlen
      have hkey : bundleKey (s1.mPool e.poolIndex.toNat) = entryKey e := by
        rw [bundleKey, entryKey]
        have h2 : s1.mPool e.poolIndex.toNat = s.mPool e.poolIndex.toNat := rfl
        rw [h2, hrange.2.2.1, hrange.2.2.2]
      rw [List.map_cons, ih s2 bound hlen2 hpre2, hkey]
      rw [hq, List.map_cons, List.filter_cons]
      rw [if_pos (by simpa [entryKey] using hle)]
      rw [hs2q]
    · -- the head is beyond the window: nothing is dispatched
      rw [dispatchLoop, if_neg (by rw [hnext]; exact hle)]
      rw [hq, List.map_cons, List.filter_cons]
      rw [if_neg (by simpa [entryKey] using hle)]
      dsimp only
      rw [List.map_nil]
      symm
      rw [List.filter_eq_nil_iff]
      intro k hk
      obtain ⟨e', he', rfl⟩ := List.mem_map.mp hk
      have hgt : e.time < e'.time ∨ (e.time = e'.time ∧
          e.stabilityCount < e'.stabilityCount) := by
        rw [hq] at hSorted
        exact (List.pairwise_cons.mp hSorted).1 e' he'
      simp only [entryKey, decide_eq_true_eq]
      intro hc
      rcases hgt with hgt | ⟨hgt, -⟩ <;> omega

/-- C1 (counterexample): the claim quantifies over ANY interleaving of
`Add` and `Remove`.  Interleaving `Add 10; Remove; Add 5; Remove` makes
`Remove` return key `(10, 0)` and then key `(5, 1)`, which is decreasing
in `(time_tag, stability)` — so the claim as stated is false. -/
theorem c1_counterexample :
    (runOps sched0 [SchedOp.addOp 10 [] 0, SchedOp.removeOp,
      SchedOp.addOp 5 [] 0, SchedOp.removeOp]).1 = [(10, 0), (5, 1)] ∧
    ¬ List.Pairwise pairLe [((10 : Int), (0 : Int)), ((5 : Int), (1 : Int))] := by
  decide

/-- C1 (amended): for every sequence of `Add` calls that is not interleaved
with `Remove` (at most the pool capacity of 128), draining the scheduler by
repeated `Remove` returns the bundles in strictly increasing
`(time_tag, stability)` order, and the returned keys are exactly a
permutation of `(time_i, i)` where `i` is the zero-based addition rank:
the stability counter is incremented on each `Add`, so bundles sharing a
time tag come back in the FIFO order in which they were added. -/
theorem c1_scheduler_ordering (adds : List AddReq)
    (h : adds.length ≤ MAX_SCHEDULED_BUNDLES) :
    ((drainAll (runAdds sched0 adds)).map bundleKey).Pairwise pairLt ∧
    ((drainAll (runAdds sched0 adds)).map bundleKey).Perm (stampKeys 0 adds) := by
  obtain ⟨hInv, hctr, hlen, hperm⟩ :=
    runAdds_inv adds sched0 schedInv_sched0 (by simpa [sched0] using h)
  have hkeys : (drainAll (runAdds sched0 adds)).map bundleKey =
      (runAdds sched0 adds).mQueue.map entryKey :=
    drainLoop_keys _ _ rfl hInv.2.2.1
  constructor
  · rw [hkeys]
    exact hInv.1.map entryKey (fun a b hab => hab)
  · rw [hkeys]
    have h0 : sched0.mStabilityCounter = 0 := rfl
    have h1 : sched0.mQueue.map entryKey = [] := rfl
    rw [h0, h1] at hperm
    simpa using hperm

/-- C1 (witness): three adds with times 5, 3, 5 drain as
`(3,1), (5,0), (5,2)` — sorted, and FIFO among the two time-5 bundles. -/
theorem c1_scheduler_ordering_witness :
    ([(⟨5, [], 0⟩ : AddReq), ⟨3, [], 0⟩, ⟨5, [], 0⟩].length ≤ MAX_SCHEDULED_BUNDLES) ∧
    (((drainAll (runAdds sched0 [⟨5, [], 0⟩, ⟨3, [], 0⟩, ⟨5, [], 0⟩])).map
        bundleKey).Pairwise pairLt ∧
      ((drainAll (runAdds sched0 [⟨5, [], 0⟩, ⟨3, [], 0⟩, ⟨5, [], 0⟩])).map
        bundleKey).Perm (stampKeys 0 [⟨5, [], 0⟩, ⟨3, [], 0⟩, ⟨5, [], 0⟩])) :=
  ⟨by decide, c1_scheduler_ordering _ (by decide)⟩

/-- C2 (counterexample): with `t_now = 1000` and cached per-quantum
increment `d = 100`, a scheduled bundle whose time tag is exactly
`t_now + d = 1100` IS dispatched in this call (the loop condition is
`NextTime() <= t_now + d`), while the claim says it is deferred. -/
theorem c2_counterexample :
    ((dispatchDue (runAdds sched0 [⟨1100, [], 0⟩]) 1000 100).1.map
      (fun b => b.mTime)) = [1100] ∧ (1100 : Int) = 1000 + 100 := by
  decide

/-- C2 (amended): in one scheduled-dispatch pass with current protocol time
`t` and cached per-quantum increment `d`, exactly the scheduled bundles
with time tag `≤ t + d` are dispatched (so tags `t` and `t + d - 1` are
dispatched, and — contrary to the claim — so is tag `t + d`; only tags
`> t + d` are deferred to a later quantum). -/
theorem c2_dispatch_window (s : BundleScheduler) (t d : Int) (h : DispatchPre s) :
    ((dispatchDue s t d).1.map bundleKey =
      (s.mQueue.map entryKey).filter (fun k => decide (k.1 ≤ t + d))) ∧
    (∀ e ∈ s.mQueue, e.time ≤ t + d → entryKey e ∈ (dispatchDue s t d).1.map bundleKey) ∧
    (∀ b ∈ (dispatchDue s t d).1, b.mTime ≤ t + d) := by
  have hmain := dispatchLoop_keys s.mQueue.length s (t + d) rfl h
  rw [dispatchDue]
  refine ⟨hmain, ?_, ?_⟩
  · intro e he hle
    rw [hmain]
    apply List.mem_filter.mpr
    refine ⟨List.mem_map.mpr ⟨e, he, rfl⟩, ?_⟩
    simpa [entryKey] using hle
  · intro b hb
    have hmem : bundleKey b ∈ (dispatchLoop s.mQueue.length s (t + d)).1.map bundleKey :=
      List.mem_map.mpr ⟨b, hb, rfl⟩
    rw [hmain] at hmem
    have := (List.mem_filter.mp hmem).2
    simpa [bundleKey] using this

/-- C2 (witness): bundles at 1000, 1100, 1101 with `t = 1000`, `d = 100`:
the filter characterization applies to this concrete scheduler state. -/
theorem c2_dispatch_window_witness :
    DispatchPre (runAdds sched0 [⟨1000, [], 0⟩, ⟨1100, [], 0⟩, ⟨1101, [], 0⟩]) ∧
    ((dispatchDue (runAdds sched0 [⟨1000, [], 0⟩, ⟨1100, [], 0⟩, ⟨1101, [], 0⟩])
        1000 100).1.map bundleKey =
      ((runAdds sched0 [⟨1000, [], 0⟩, ⟨1100, [], 0⟩, ⟨1101, [], 0⟩]).mQueue.map
        entryKey).filter (fun k => decide (k.1 ≤ 1000 + 100))) :=
  ⟨by decide, (c2_dispatch_window _ 1000 100 (by decide)).1⟩

/-- C7: evaluating the scheduler at its actual capacity.  After 128
successful adds the queue holds 128 entries and the next `Add` fails —
not after 512 as `shared_memory.h`'s `SCHEDULER_SLOT_COUNT` (and the spec)
state, contradicting the comment "These must match the values in
BundleScheduler.h".  After one `Remove` plus release of its slot, an `Add`
succeeds again. -/
theorem c7_capacity_observed :
    (runAdds sched0 (List.replicate 128 ⟨0, [], 0⟩)).mQueue.length = 128 ∧
    ((runAdds sched0 (List.replicate 128 ⟨0, [], 0⟩)).Add 0 [] 0).1 = false ∧
    (match (runAdds sched0 (List.replicate 128 ⟨0, [], 0⟩)).Remove with
      | (some slot, s') => ((s'.ReleaseSlot slot).Add 0 [] 0).1 = true
      | (none, _) => False) := by
  obtain ⟨hInv, -, hlen, -⟩ :=
    runAdds_inv (List.replicate 128 ⟨0, [], 0⟩) sched0 schedInv_sched0
      (by simp [sched0, MAX_SCHEDULED_BUNDLES])
  have hlen128 : (runAdds sched0 (List.replicate 128 ⟨0, [], 0⟩)).mQueue.length = 128 := by
    simpa [sched0] using hlen
  refine ⟨hlen128, ?_, ?_⟩
  · rw [BundleScheduler.Add, if_pos (by rw [hlen128]; exact le_refl _)]
  · obtain ⟨e, rest, hq⟩ : ∃ e rest,
        (runAdds sched0 (List.replicate 128 ⟨0, [], 0⟩)).mQueue = e :: rest := by
      cases hq : (runAdds sched0 (List.replicate 128 ⟨0, [], 0⟩)).mQueue with
      | nil => rw [hq] at hlen128; simp at hlen128
      | cons e rest => exact ⟨e, rest, rfl⟩
    have hrange := hInv.2.2.1 e (by rw [hq]; exact List.mem_cons_self _ _)
    have hrem := remove_cons hq hrange.1 hrange.2.1
    rw [hrem]
    set s' : BundleScheduler :=
      { runAdds sched0 (List.replicate 128 ⟨0, [], 0⟩) with mQueue := rest } with hs'
    show ((s'.ReleaseSlot e.poolIndex.toNat).Add 0 [] 0).1 = true
    set s2 := s'.ReleaseSlot e.poolIndex.toNat with hs2
    have hlenq : s2.mQueue.length = 127 := by
      have : s'.mQueue = rest := rfl
      have h2 : s2.mQueue = rest := rfl
      rw [hq] at hlen128
      rw [h2]
      simpa using hlen128
    have hfree : (s2.mPool e.poolIndex.toNat).mInUse = false := by
      rw [hs2, BundleScheduler.ReleaseSlot]
      dsimp only
      rw [Function.update_same]
      rfl
    have hsome : s2.AllocateSlot.isSome := by
      rw [BundleScheduler.AllocateSlot, List.find?_isSome]
      refine ⟨e.poolIndex.toNat, List.mem_range.mpr ?_, by rw [hfree]; rfl⟩
      have h1 := hrange.1
      have h2 := hrange.2.1
      rw [show ((MAX_SCHEDULED_BUNDLES : Nat) : Int) = 128 from rfl] at h2
      rw [show (MAX_SCHEDULED_BUNDLES : Nat) = 128 from rfl]
      omega
    obtain ⟨sl, hsl⟩ := Option.isSome_iff_exists.mp hsome
    rw [BundleScheduler.Add, if_neg (by rw [hlenq]; decide), hsl]

/-- C3 (counterexample): a 16-byte payload whose first 8 bytes are
`"#bundle"` followed by `'A'` (no null terminator) is still classified as
a bundle by the code, refuting the claim's "iff ... followed by a null
terminator". -/
theorem c3_counterexample :
    is_bundle [35, 98, 117, 110, 100, 108, 101, 65, 0, 0, 0, 0, 0, 0, 0, 1] = true ∧
    [35, 98, 117, 110, 100, 108, 101, 65, 0, 0, 0, 0, 0, 0, 0, 1].take 8 ≠
      [35, 98, 117, 110, 100, 108, 101, 0] := by
  decide

/-- `strncmp` against a null-free pattern is zero exactly when the data
starts with the pattern. -/
theorem strncmpBytes_eq_zero_iff (pat : List Nat) (hpat : ∀ b ∈ pat, b ≠ 0) :
    ∀ data, strncmpBytes pat.length data pat = 0 ↔ data.take pat.length = pat := by
  induction pat with
  | nil =>
    intro data
    simp [strncmpBytes]
  | cons y ys ih =>
    intro data
    have hy : y ≠ 0 := hpat y (List.mem_cons_self y ys)
    rcases data with - | ⟨x, xs⟩
    · rw [List.length_cons, strncmpBytes]
      constructor
      · intro h
        exfalso
        apply hy
        omega
      · intro h
        exact absurd h (by simp)
    · rw [List.length_cons, strncmpBytes]
      by_cases hxy : x = y
      · subst hxy
        rw [if_pos rfl, if_neg hy]
        rw [ih (fun b hb => hpat b (List.mem_cons_of_mem _ hb)) xs]
        simp
      · rw [if_neg hxy]
        constructor
        · intro h
          exfalso
          apply hxy
          omega
        · intro h
          simp only [List.take_succ_cons, List.cons.injEq] at h
          exact absurd h.1 hxy

/-- Auxiliary: `strncmp(data, "#bundle", 7) == 0` holds exactly when the
first seven bytes of the payload are `"#bundle"`. -/
theorem strncmp_bundle_iff (data : List Nat) :
    strncmpBytes 7 data bundleLit7 = 0 ↔ data.take 7 = bundleLit7 := by
  have h := strncmpBytes_eq_zero_iff bundleLit7 (by decide) data
  simpa [bundleLit7] using h

/-- C3 (amended): a drained payload is treated as a bundle iff its length
is at least 16 and its first SEVEN bytes are the ASCII `"#bundle"` — the
eighth byte (the null terminator in well-formed OSC) is never examined;
payloads failing this predicate are dispatched as single messages. -/
theorem c3_bundle_classification (payload : List Nat) (schedulerFull : Bool) :
    (is_bundle payload = true ↔ 16 ≤ payload.length ∧ payload.take 7 = bundleLit7) ∧
    (classify payload schedulerFull = MsgKind.plainMessage ↔
      ¬(16 ≤ payload.length ∧ payload.take 7 = bundleLit7)) := by
  have hmain : is_bundle payload = true ↔
      16 ≤ payload.length ∧ payload.take 7 = bundleLit7 := by
    rw [is_bundle]
    by_cases hlen : payload.length < 16
    · simp only [hlen, if_true]
      constructor
      · intro h
        exact absurd h (by simp)
      · intro h
        omega
    · simp only [hlen, if_false]
      rw [beq_iff_eq, strncmp_bundle_iff]
      constructor
      · intro h
        exact ⟨by omega, h⟩
      · intro h
        exact h.2
  refine ⟨hmain, ?_⟩
  rw [classify]
  by_cases hb : is_bundle payload = true
  · rw [if_pos hb]
    constructor
    · intro h
      dsimp only at h
      by_cases ht : extract_timetag payload = 0 ∨ extract_timetag payload = 1
      · rw [if_pos ht] at h
        exact absurd h (by simp)
      · rw [if_neg ht] at h
        by_cases hf : schedulerFull = true
        · rw [if_pos hf] at h
          exact absurd h (by simp)
        · rw [if_neg hf] at h
          exact absurd h (by simp)
    · intro h
      exact absurd (hmain.mp hb) h
  · rw [if_neg hb]
    simp only [true_iff]
    intro hc
    exact hb (hmain.mpr hc)

/-- C4 (counterexample): on a 64-byte ring that is empty (`head = tail`),
writing a 48-byte payload — total frame length exactly the capacity —
fails, while the claim says an exact-fill write succeeds on an empty
ring. -/
theorem c4_counterexample :
    (ring_buffer_write 64
      { buf := fun _ => 0, head := 0, tail := 0, seq := 0,
        statusFlags := 0, droppedCount := 0 }
      (List.replicate 48 7)).1 = false ∧
    HEADER_SIZE + (List.replicate 48 7).length = 64 := by
  decide

/-- C4 (amended): a write whose total frame length (16-byte header plus
payload) equals the ring capacity fails in EVERY ring state, the empty
ring included: the writer computes free space as
`(capacity - 1 - head + tail) % capacity ≤ capacity - 1`, so a
full-capacity frame never fits.  The failing write sets the
`BUFFER_FULL` status bit and increments the drop counter. -/
theorem c4_exact_fill_write (capacity : Nat) (r : WriteRing) (data : List Nat)
    (hhead : r.head < capacity) ( _htail : r.tail < capacity)
    (hlen : HEADER_SIZE + data.length = capacity) :
    (ring_buffer_write capacity r data).1 = false ∧
    (ring_buffer_write capacity r data).2.droppedCount = r.droppedCount + 1 ∧
    (ring_buffer_write capacity r data).2.statusFlags = r.statusFlags ||| 1 ∧
    (ring_buffer_write capacity r data).2.seq = r.seq + 1 := by
  have hpos : 0 < capacity := by omega
  have havail : (capacity - 1 - r.head + r.tail) % capacity < HEADER_SIZE + data.length := by
    rw [hlen]
    exact Nat.mod_lt _ hpos
  rw [ring_buffer_write]
  dsimp only
  rw [if_pos havail]
  exact ⟨rfl, rfl, rfl, rfl⟩

/-- C4 (witness): the amended theorem applied to the empty 64-byte ring. -/
theorem c4_exact_fill_write_witness :
    ((0 : Nat) < 64 ∧ (0 : Nat) < 64 ∧ HEADER_SIZE + (List.replicate 48 9).length = 64) ∧
    ((ring_buffer_write 64
        { buf := fun _ => 0, head := 0, tail := 0, seq := 5,
          statusFlags := 0, droppedCount := 2 }
        (List.replicate 48 9)).1 = false ∧
      (ring_buffer_write 64
        { buf := fun _ => 0, head := 0, tail := 0, seq := 5,
          statusFlags := 0, droppedCount := 2 }
        (List.replicate 48 9)).2.droppedCount = 2 + 1 ∧
      (ring_buffer_write 64
        { buf := fun _ => 0, head := 0, tail := 0, seq := 5,
          statusFlags := 0, droppedCount := 2 }
        (List.replicate 48 9)).2.statusFlags = 0 ||| 1 ∧
      (ring_buffer_write 64
        { buf := fun _ => 0, head := 0, tail := 0, seq := 5,
          statusFlags := 0, droppedCount := 2 }
        (List.replicate 48 9)).2.seq = 5 + 1) :=
  ⟨⟨by decide, by decide, by decide⟩,
    c4_exact_fill_write 64 _ _ (by decide) (by decide) (by decide)⟩

/-- Every call advances the sequence counter by exactly one, written or
dropped. -/
theorem ring_buffer_write_seq (capacity : Nat) (r : WriteRing) (data : List Nat) :
    (ring_buffer_write capacity r data).2.seq = r.seq + 1 := by
  rw [ring_buffer_write]
  dsimp only
  split_ifs <;> rfl

/-- The `k`-th call in a run stamps sequence `(initial + k) % 2^32`. -/
theorem runWrites_stamp : ∀ (calls : List WriteCall) (capacity : Nat) (r : WriteRing)
    (k : Nat) (s : Nat),
    (runWrites capacity r calls).2.getD k none = some s → s = (r.seq + k) % 2 ^ 32 := by
  intro calls
  induction calls with
  | nil =>
    intro capacity r k s h
    simp [runWrites] at h
  | cons c rest ih =>
    intro capacity r k s h
    rw [runWrites] at h
    cases k with
    | zero =>
      dsimp only at h
      rw [List.getD_cons_zero] at h
      by_cases hok : (ring_buffer_write capacity { r with tail := c.tailAtCall } c.data).1 = true
      · rw [if_pos hok] at h
        have := Option.some.inj h
        simpa using this.symm
      · rw [if_neg hok] at h
        exact absurd h (by simp)
    | succ k =>
      dsimp only at h
      rw [List.getD_cons_succ] at h
      have := ih capacity (ring_buffer_write capacity { r with tail := c.tailAtCall } c.data).2
        k s h
      rw [ring_buffer_write_seq] at this
      rw [this]
      have : r.seq + 1 + k = r.seq + (k + 1) := by omega
      rw [this]

/-- C5 (amended): in any sequence of `ring_buffer_write` calls on one ring
(consumer tail moving arbitrarily between calls), if calls `i` and `j`
produce successive observed frames — call `i` wrote a frame with sequence
`s1`, call `j > i` wrote the next observed frame with sequence `s2`, and
every call strictly between failed — then
`s2 = (s1 + 1 + f) % 2^32` where `f = j - i - 1` is the number of failed
calls between them.  In particular `s2 = (s1 + 1) % 2^32` when no call
between them failed; the counter is consumed BEFORE the space check, so a
failed call widens the gap, and the wrap modulus is `2^32`, not `2^31`. -/
theorem c5_sequence_contiguity (capacity : Nat) (r : WriteRing)
    (calls : List WriteCall) (i j : Nat) (s1 s2 : Nat)
    (hij : i < j)
    (h1 : (runWrites capacity r calls).2.getD i none = some s1)
    (h2 : (runWrites capacity r calls).2.getD j none = some s2)
    ( _hbetween : ∀ k, i < k → k < j → (runWrites capacity r calls).2.getD k none = none) :
    s2 = (s1 + 1 + (j - i - 1)) % 2 ^ 32 := by
  have e1 := runWrites_stamp calls capacity r i s1 h1
  have e2 := runWrites_stamp calls capacity r j s2 h2
  rw [e1, e2]
  omega

/-- C5 (witness): in the example run the two observed frames carry
sequences 0 and 2, and the theorem explains the gap:
`2 = (0 + 1 + 1) % 2^32` with one failed call between them. -/
theorem c5_sequence_contiguity_witness :
    ((0 : Nat) < 2 ∧
      (runWrites 64 ring64 c5Calls).2.getD 0 none = some 0 ∧
      (runWrites 64 ring64 c5Calls).2.getD 2 none = some 2 ∧
      (∀ k, 0 < k → k < 2 → (runWrites 64 ring64 c5Calls).2.getD k none = none)) ∧
    (2 : Nat) = (0 + 1 + (2 - 0 - 1)) % 2 ^ 32 :=
  have hb : ∀ k, 0 < k → k < 2 → (runWrites 64 ring64 c5Calls).2.getD k none = none := by
    intro k hk1 hk2
    have hk : k = 1 := by omega
    subst hk
    decide
  ⟨⟨by decide, by decide, by decide, hb⟩,
    c5_sequence_contiguity 64 ring64 c5Calls 0 2 0 2 (by decide) (by decide) (by decide) hb⟩

/-- C5 (counterexample): the same run shows two successive observed valid
frames with sequences 0 and then 2, but the claim demands
`s2 = (s1 + 1) mod 2^31 = 1`: a failed write (the 60-byte payload does not
fit) consumes a sequence number, so contiguity fails even though no
scheduler-clear happened. -/
theorem c5_counterexample :
    (runWrites 64 ring64 c5Calls).2 = [some 0, none, some 2] ∧
    (2 : Nat) ≠ (0 + 1) % 2 ^ 31 := by
  decide

/-- C6 (counterexample): with a `PADDING_MAGIC` header at tail 32, the
inbound consumer advances the tail to 33 and counts ONE dropped message —
it does not set the tail to 0, and it does count the sentinel as dropped.
The inbound drain loop simply has no padding-sentinel case ("ringbuf.js
approach: no padding markers", line 513). -/
theorem c6_counterexample :
    readHeader32 c6Buf 32 0 = PADDING_MAGIC ∧
    (inboundStep c6Buf c6St sched0).1.tail = 33 ∧
    (inboundStep c6Buf c6St sched0).1.messagesDropped = 1 ∧
    (inboundStep c6Buf c6St sched0).2.2 = DrainAction.droppedBadMagic := by
  refine ⟨by decide, ?_, ?_, ?_⟩ <;>
    · rw [inboundStep]
      rw [if_pos (show readHeader32 c6Buf c6St.tail 0 ≠ MESSAGE_MAGIC by decide)]
      try decide

/-- C6 (amended): whenever the 16-byte header at the current tail has a
magic different from `MESSAGE_MAGIC` — in particular a `PADDING_MAGIC`
sentinel — the consumer advances the tail by one byte (mod the ring
size), increments the dropped-message counter, leaves the scheduler and
all other drain state unchanged, and continues. -/
theorem c6_inbound_padding (buf : Nat → Nat) (st : DrainState)
    (sched : BundleScheduler) (h : readHeader32 buf st.tail 0 ≠ MESSAGE_MAGIC) :
    inboundStep buf st sched =
      ({ st with tail := (st.tail + 1) % IN_BUFFER_SIZE,
                 messagesDropped := st.messagesDropped + 1 },
        sched, DrainAction.droppedBadMagic) := by
  rw [inboundStep]
  rw [if_pos h]

/-- C6 (witness): the amended theorem applied at the concrete sentinel
state. -/
theorem c6_inbound_padding_witness :
    (readHeader32 c6Buf c6St.tail 0 ≠ MESSAGE_MAGIC) ∧
    inboundStep c6Buf c6St sched0 =
      ({ c6St with tail := (c6St.tail + 1) % IN_BUFFER_SIZE,
                   messagesDropped := c6St.messagesDropped + 1 },
        sched0, DrainAction.droppedBadMagic) :=
  ⟨by decide, c6_inbound_padding c6Buf c6St sched0 (by decide)⟩

/-! ### Hash-table lemmas for the mirror invariant -/

/-- A successful probe returns a bucket that holds the key (and an
occupied bucket, since the empty check precedes the comparison). -/
theorem htFindAux_some {hash : Nat → NTHashEntry} {key : Int} :
    ∀ {fuel idx b : Nat}, htFindAux hash key fuel idx = some b →
    (hash b).key = key ∧ (hash b).key ≠ NT_HASH_EMPTY := by
  intro fuel
  induction fuel with
  | zero =>
    intro idx b h
    simp [htFindAux] at h
  | succ n ih =>
    intro idx b h
    rw [htFindAux] at h
    by_cases h1 : (hash idx).key = NT_HASH_EMPTY
    · rw [if_pos h1] at h
      exact absurd h (by simp)
    · rw [if_neg h1] at h
      by_cases h2 : (hash idx).key = key
      · rw [if_pos h2] at h
        have hb : idx = b := Option.some.inj h
        subst hb
        exact ⟨h2, h1⟩
      · rw [if_neg h2] at h
        exact ih h

/-- A successful empty-bucket scan returns an empty bucket. -/
theorem htScanEmpty_some {hash : Nat → NTHashEntry} :
    ∀ {fuel idx b : Nat}, htScanEmpty hash fuel idx = some b →
    (hash b).key = NT_HASH_EMPTY := by
  intro fuel
  induction fuel with
  | zero =>
    intro idx b h
    simp [htScanEmpty] at h
  | succ n ih =>
    intro idx b h
    rw [htScanEmpty] at h
    by_cases h1 : (hash idx).key = NT_HASH_EMPTY
    · rw [if_pos h1] at h
      have hb : idx = b := Option.some.inj h
      subst hb
      exact h1
    · rw [if_neg h1] at h
      exact ih h

/-- The mover scan only returns occupied buckets. -/
theorem htScanMover_some {hash : Nat → NTHashEntry} {i : Nat} :
    ∀ {fuel j0 j : Nat}, htScanMover hash i fuel j0 = some j →
    (hash j).key ≠ NT_HASH_EMPTY := by
  intro fuel
  induction fuel with
  | zero =>
    intro j0 j h
    simp [htScanMover] at h
  | succ n ih =>
    intro j0 j h
    rw [htScanMover] at h
    by_cases h1 : (hash j0).key = NT_HASH_EMPTY
    · rw [if_pos h1] at h
      exact absurd h (by simp)
    · rw [if_neg h1] at h
      split_ifs at h with h2
      · exact ih h
      · have hb : j0 = j := Option.some.inj h
        subst hb
        exact h1

/-- `nt_hash_insert` either leaves the table unchanged or writes the new
pair into a previously empty bucket. -/
theorem nt_hash_insert_cases (hash : Nat → NTHashEntry) (key value : Int) :
    nt_hash_insert hash key value = hash ∨
    ∃ b0, (hash b0).key = NT_HASH_EMPTY ∧
      nt_hash_insert hash key value =
        Function.update hash b0 { key := key, value := value } := by
  rw [nt_hash_insert]
  cases hscan : htScanEmpty hash NT_HASH_CAPACITY (nt_hash_func key) with
  | none => exact Or.inl rfl
  | some b0 => exact Or.inr ⟨b0, htScanEmpty_some hscan, rfl⟩

/-- `nt_hash_find` returns `-1` or the value of an occupied bucket
holding the key. -/
theorem nt_hash_find_cases (hash : Nat → NTHashEntry) (key : Int) :
    nt_hash_find hash key = -1 ∨
    ∃ b, (hash b).key = key ∧ (hash b).key ≠ NT_HASH_EMPTY ∧
      nt_hash_find hash key = (hash b).value := by
  rw [nt_hash_find]
  cases hscan : htFindAux hash key NT_HASH_CAPACITY (nt_hash_func key) with
  | none => exact Or.inl rfl
  | some b =>
    obtain ⟨h1, h2⟩ := htFindAux_some hscan
    exact Or.inr ⟨b, h1, h2, rfl⟩

/-- Every occupied bucket of the backward-shift result holds a pair that
the table held right after the removed bucket was emptied. -/
theorem htShiftLoop_subset :
    ∀ (fuel : Nat) (hash : Nat → NTHashEntry) (i : Nat) (b : Nat),
    ((htShiftLoop fuel hash i) b).key ≠ NT_HASH_EMPTY →
    ∃ b0, (htShiftLoop fuel hash i) b =
      Function.update hash i { key := NT_HASH_EMPTY, value := (hash i).value } b0 := by
  intro fuel
  induction fuel with
  | zero =>
    intro hash i b hocc
    exact ⟨b, rfl⟩
  | succ n ih =>
    intro hash i b hocc
    rw [htShiftLoop] at hocc ⊢
    try dsimp only at hocc ⊢
    set h1 := Function.update hash i
      { key := NT_HASH_EMPTY, value := (hash i).value } with hh1
    cases hmove : htScanMover h1 i 2047 ((i + 1) &&& 2047) with
    | none =>
      rw [hmove] at hocc
      try dsimp only at hocc ⊢
      exact ⟨b, rfl⟩
    | some j =>
      rw [hmove] at hocc
      try dsimp only at hocc ⊢
      have hjne : j ≠ i := by
        intro hc
        apply htScanMover_some hmove
        rw [hc, hh1]
        rw [Function.update_same]
      obtain ⟨b0, hb0⟩ := ih (Function.update h1 i (h1 j)) j b hocc
      by_cases hb0j : b0 = j
      · -- the recursion's first step empties bucket `j`, so a pair read
        -- there contradicts occupancy
        exfalso
        apply hocc
        rw [hb0, hb0j, Function.update_same]
      · rw [hb0]
        rw [Function.update_noteq hb0j]
        by_cases hb0i : b0 = i
        · subst hb0i
          rw [Function.update_same]
          exact ⟨j, rfl⟩
        · rw [Function.update_noteq hb0i]
          exact ⟨b0, rfl⟩

/-- Backward-shift deletion preserves injectivity of the stored slot
values (stated ignoring the emptied bucket on entry). -/
theorem htShiftLoop_injective :
    ∀ (fuel : Nat) (hash : Nat → NTHashEntry) (i : Nat),
    (∀ b1 b2, b1 ≠ b2 → b1 ≠ i → b2 ≠ i → (hash b1).key ≠ NT_HASH_EMPTY →
      (hash b2).key ≠ NT_HASH_EMPTY → (hash b1).value ≠ (hash b2).value) →
    ∀ b1 b2, b1 ≠ b2 →
      ((htShiftLoop fuel hash i) b1).key ≠ NT_HASH_EMPTY →
      ((htShiftLoop fuel hash i) b2).key ≠ NT_HASH_EMPTY →
      ((htShiftLoop fuel hash i) b1).value ≠ ((htShiftLoop fuel hash i) b2).value := by
  intro fuel
  induction fuel with
  | zero =>
    intro hash i hinj b1 b2 hne hocc1 hocc2
    rw [htShiftLoop] at hocc1 hocc2 ⊢
    try dsimp only at hocc1 hocc2 ⊢
    have hb1 : b1 ≠ i := by
      intro hc
      apply hocc1
      rw [hc, Function.update_same]
    have hb2 : b2 ≠ i := by
      intro hc
      apply hocc2
      rw [hc, Function.update_same]
    rw [Function.update_noteq hb1] at hocc1 ⊢
    rw [Function.update_noteq hb2] at hocc2 ⊢
    exact hinj b1 b2 hne hb1 hb2 hocc1 hocc2
  | succ n ih =>
    intro hash i hinj b1 b2 hne hocc1 hocc2
    rw [htShiftLoop] at hocc1 hocc2 ⊢
    try dsimp only at hocc1 hocc2 ⊢
    set h1 := Function.update hash i
      { key := NT_HASH_EMPTY, value := (hash i).value } with hh1
    have h1occ : ∀ b, b ≠ i → h1 b = hash b := by
      intro b hb
      rw [hh1, Function.update_noteq hb]
    cases hmove : htScanMover h1 i 2047 ((i + 1) &&& 2047) with
    | none =>
      rw [hmove] at hocc1 hocc2
      try dsimp only at hocc1 hocc2 ⊢
      have hb1 : b1 ≠ i := by
        intro hc
        apply hocc1
        rw [hc, hh1, Function.update_same]
      have hb2 : b2 ≠ i := by
        intro hc
        apply hocc2
        rw [hc, hh1, Function.update_same]
      rw [h1occ b1 hb1] at hocc1 ⊢
      rw [h1occ b2 hb2] at hocc2 ⊢
      exact hinj b1 b2 hne hb1 hb2 hocc1 hocc2
    | some j =>
      rw [hmove] at hocc1 hocc2
      try dsimp only at hocc1 hocc2 ⊢
      have hjocc : (h1 j).key ≠ NT_HASH_EMPTY := htScanMover_some hmove
      have hjne : j ≠ i := by
        intro hc
        apply hjocc
        rw [hc, hh1, Function.update_same]
      apply ih (Function.update h1 i (h1 j)) j ?_ b1 b2 hne hocc1 hocc2
      intro c1 c2 hcne hc1j hc2j hoc1 hoc2
      -- away from `j`, bucket `i` of the recursive table holds the moved
      -- pair (the pair of `hash j`), any other bucket its `hash` pair
      by_cases hc1i : c1 = i
      · have hc2i : c2 ≠ i := fun hc => hcne (hc1i.trans hc.symm)
        rw [hc1i] at hoc1 ⊢
        rw [Function.update_same] at hoc1 ⊢
        rw [h1occ j hjne] at hoc1 ⊢
        rw [Function.update_noteq hc2i, h1occ c2 hc2i] at hoc2 ⊢
        exact hinj j c2 (fun hc => hc2j hc.symm) hjne hc2i hoc1 hoc2
      · rw [Function.update_noteq hc1i, h1occ c1 hc1i] at hoc1 ⊢
        by_cases hc2i : c2 = i
        · rw [hc2i] at hoc2 ⊢
          rw [Function.update_same] at hoc2 ⊢
          rw [h1occ j hjne] at hoc2 ⊢
          exact hinj c1 j hc1j hc1i hjne hoc1 hoc2
        · rw [Function.update_noteq hc2i, h1occ c2 hc2i] at hoc2 ⊢
          exact hinj c1 c2 hcne hc1i hc2i hoc1 hoc2

theorem countInUse_congr {e1 e2 : Nat → NodeEntry}
    (h : ∀ i, (e2 i).id = (e1 i).id) : countInUse e2 = countInUse e1 := by
  unfold countInUse
  congr 1
  apply Finset.filter_congr
  intro i _
  rw [h i]

theorem countInUse_update_free {entries : Nat → NodeEntry} {sl : Nat} {e : NodeEntry}
    (hsl : sl < NODE_TREE_MIRROR_MAX_NODES)
    (hold : (entries sl).id = -1) (hnew : e.id ≠ -1) :
    countInUse (Function.update entries sl e) = countInUse entries + 1 := by
  unfold countInUse
  have hset : (Finset.range NODE_TREE_MIRROR_MAX_NODES).filter
      (fun i => (Function.update entries sl e i).id ≠ -1) =
      insert sl ((Finset.range NODE_TREE_MIRROR_MAX_NODES).filter
        (fun i => (entries i).id ≠ -1)) := by
    ext x
    simp only [Finset.mem_filter, Finset.mem_insert, Finset.mem_range]
    by_cases hx : x = sl
    · subst hx
      simp [Function.update_same, hsl, hnew]
    · rw [Function.update_noteq hx]
      constructor
      · rintro ⟨h1, h2⟩
        exact Or.inr ⟨h1, h2⟩
      · rintro (hc | ⟨h1, h2⟩)
        · exact absurd hc hx
        · exact ⟨h1, h2⟩
  rw [hset]
  apply Finset.card_insert_of_not_mem
  simp only [Finset.mem_filter]
  rintro ⟨-, hc⟩
  exact hc hold

theorem countInUse_update_used {entries : Nat → NodeEntry} {sl : Nat} {e : NodeEntry}
    (hsl : sl < NODE_TREE_MIRROR_MAX_NODES)
    (hold : (entries sl).id ≠ -1) (hnew : e.id = -1) :
    countInUse entries = countInUse (Function.update entries sl e) + 1 := by
  unfold countInUse
  have hset : (Finset.range NODE_TREE_MIRROR_MAX_NODES).filter
      (fun i => (entries i).id ≠ -1) =
      insert sl ((Finset.range NODE_TREE_MIRROR_MAX_NODES).filter
        (fun i => (Function.update entries sl e i).id ≠ -1)) := by
    ext x
    simp only [Finset.mem_filter, Finset.mem_insert, Finset.mem_range]
    by_cases hx : x = sl
    · subst hx
      simp [hsl, hold]
    · rw [Function.update_noteq hx]
      constructor
      · rintro ⟨h1, h2⟩
        exact Or.inr ⟨h1, h2⟩
      · rintro (hc | ⟨h1, h2⟩)
        · exact absurd hc hx
        · exact ⟨h1, h2⟩
  rw [hset]
  apply Finset.card_insert_of_not_mem
  simp only [Finset.mem_filter]
  rintro ⟨-, hc⟩
  apply hc
  rw [Function.update_same]
  exact hnew

theorem freeListRep_congr : ∀ (L : List Nat) (next next' : Nat → Int) (head : Int),
    FreeListRep next head L → (∀ a ∈ L, next' a = next a) →
    FreeListRep next' head L := by
  intro L
  induction L with
  | nil =>
    intro next next' head h _
    exact h
  | cons a rest ih =>
    intro next next' head h hcong
    obtain ⟨h1, h2, h3⟩ := h
    refine ⟨h1, h2, ?_⟩
    rw [hcong a (List.mem_cons_self a rest)]
    exact ih next next' (next a) h3 (fun x hx => hcong x (List.mem_cons_of_mem _ hx))

/-- `patchEntry` with an id-preserving rewrite leaves every entry's id
unchanged. -/
theorem patchEntry_keep_id (entries : Nat → NodeEntry) (slotI : Int)
    (f : NodeEntry → NodeEntry) (hf : ∀ e, (f e).id = e.id) :
    ∀ i, ((patchEntry entries slotI f) i).id = (entries i).id := by
  intro i
  rw [patchEntry]
  by_cases hs : 0 ≤ slotI
  · rw [if_pos hs]
    by_cases hi : i = slotI.toNat
    · subst hi
      rw [Function.update_same, hf]
    · rw [Function.update_noteq hi]
  · rw [if_neg hs]

theorem patch_next_keep_id (ents : Nat → NodeEntry) (tI : Int) (v : Int) (i : Nat) :
    ((patchEntry ents tI (fun e => { e with next_id := v })) i).id = (ents i).id :=
  patchEntry_keep_id ents tI (fun e => { e with next_id := v }) (fun _ => rfl) i

theorem patch_prev_keep_id (ents : Nat → NodeEntry) (tI : Int) (v : Int) (i : Nat) :
    ((patchEntry ents tI (fun e => { e with prev_id := v })) i).id = (ents i).id :=
  patchEntry_keep_id ents tI (fun e => { e with prev_id := v }) (fun _ => rfl) i

theorem patch_head_keep_id (ents : Nat → NodeEntry) (tI : Int) (v : Int) (i : Nat) :
    ((patchEntry ents tI (fun e => { e with head_id := v })) i).id = (ents i).id :=
  patchEntry_keep_id ents tI (fun e => { e with head_id := v }) (fun _ => rfl) i

theorem patch_headCond_keep_id (ents : Nat → NodeEntry) (tI : Int) (w v : Int) (i : Nat) :
    ((patchEntry ents tI
      (fun e => if e.head_id = w then { e with head_id := v } else e)) i).id = (ents i).id :=
  patchEntry_keep_id ents tI (fun e => if e.head_id = w then { e with head_id := v } else e)
    (fun e => by dsimp only; split_ifs <;> rfl) i

theorem ite_patch_next_keep_id (c : Prop) [Decidable c] (ents : Nat → NodeEntry)
    (tI : Int) (v : Int) (i : Nat) :
    ((if c then patchEntry ents tI (fun e => { e with next_id := v }) else ents) i).id =
      (ents i).id := by
  split_ifs
  · exact patch_next_keep_id ents tI v i
  · rfl

theorem ite_patch_prev_keep_id (c : Prop) [Decidable c] (ents : Nat → NodeEntry)
    (tI : Int) (v : Int) (i : Nat) :
    ((if c then patchEntry ents tI (fun e => { e with prev_id := v }) else ents) i).id =
      (ents i).id := by
  split_ifs
  · exact patch_prev_keep_id ents tI v i
  · rfl

theorem ite_patch_head_keep_id (c : Prop) [Decidable c] (ents : Nat → NodeEntry)
    (tI : Int) (v : Int) (i : Nat) :
    ((if c then patchEntry ents tI (fun e => { e with head_id := v }) else ents) i).id =
      (ents i).id := by
  split_ifs
  · exact patch_head_keep_id ents tI v i
  · rfl

theorem ite_patch_headCond_keep_id (c : Prop) [Decidable c] (ents : Nat → NodeEntry)
    (tI : Int) (w v : Int) (i : Nat) :
    ((if c then patchEntry ents tI
        (fun e => if e.head_id = w then { e with head_id := v } else e)
      else ents) i).id = (ents i).id := by
  split_ifs
  · exact patch_headCond_keep_id ents tI w v i
  · rfl

theorem countInUse_pos {entries : Nat → NodeEntry} {sl : Nat}
    (hsl : sl < NODE_TREE_MIRROR_MAX_NODES) (h : (entries sl).id ≠ -1) :
    1 ≤ countInUse entries := by
  unfold countInUse
  rw [Nat.succ_le_iff, Finset.card_pos]
  exact ⟨sl, Finset.mem_filter.mpr ⟨Finset.mem_range.mpr hsl, h⟩⟩

/-- Field equations of a successful `NodeTree_Add`. -/
theorem addResult_fields (s : NodeTreeState) (node : EngineNode)
    (hfree : ¬ s.free_head < 0) :
    (NodeTree_Add s node).node_count = s.node_count + 1 ∧
    (NodeTree_Add s node).versionIncrements = s.versionIncrements + 1 ∧
    (NodeTree_Add s node).free_next = s.free_next ∧
    (NodeTree_Add s node).free_head = s.free_next s.free_head.toNat ∧
    (NodeTree_Add s node).hash =
      nt_hash_insert s.hash node.mID (s.free_head.toNat : Int) := by
  rw [NodeTree_Add, if_neg hfree]
  exact ⟨rfl, rfl, rfl, rfl, rfl⟩

/-- Entry ids after a successful `NodeTree_Add`: the popped slot takes the
node id, all other ids are untouched (the sibling patches never write
ids). -/
theorem addResult_ids (s : NodeTreeState) (node : EngineNode)
    (hfree : ¬ s.free_head < 0) (i : Nat) :
    ((NodeTree_Add s node).entries i).id =
      ((Function.update s.entries s.free_head.toNat (addEntry node)) i).id := by
  rw [NodeTree_Add, if_neg hfree]
  dsimp only
  rcases node.mPrevID with - | pid <;> rcases node.mNextID with - | nid <;>
    rcases node.mParentID with - | parid <;>
      simp only [patch_next_keep_id, patch_prev_keep_id, patch_head_keep_id]

/-- Field equations of a found `NodeTree_Remove`. -/
theorem removeResult_fields (s : NodeTreeState) (nodeId : Int)
    (hfound : ¬ nt_hash_find s.hash nodeId < 0) :
    (NodeTree_Remove s nodeId).node_count =
      (if s.node_count > 0 then s.node_count - 1 else s.node_count) ∧
    (NodeTree_Remove s nodeId).versionIncrements = s.versionIncrements + 1 ∧
    (NodeTree_Remove s nodeId).free_next =
      Function.update s.free_next (nt_hash_find s.hash nodeId).toNat s.free_head ∧
    (NodeTree_Remove s nodeId).free_head =
      ((nt_hash_find s.hash nodeId).toNat : Int) ∧
    (NodeTree_Remove s nodeId).hash = nt_hash_remove s.hash nodeId := by
  rw [NodeTree_Remove]
  rw [if_neg hfound]
  exact ⟨rfl, rfl, rfl, rfl, rfl⟩

/-- Entry ids after a found `NodeTree_Remove`: the freed slot id becomes
`-1`, all other ids are untouched. -/
theorem removeResult_ids (s : NodeTreeState) (nodeId : Int)
    (hfound : ¬ nt_hash_find s.hash nodeId < 0) :
    (∀ i, i ≠ (nt_hash_find s.hash nodeId).toNat →
      ((NodeTree_Remove s nodeId).entries i).id = (s.entries i).id) ∧
    ((NodeTree_Remove s nodeId).entries (nt_hash_find s.hash nodeId).toNat).id = -1 := by
  rw [NodeTree_Remove]
  rw [if_neg hfound]
  dsimp only
  constructor
  · intro i hi
    rw [Function.update_noteq hi]
    simp only [ite_patch_next_keep_id, ite_patch_prev_keep_id, ite_patch_head_keep_id]
  · rw [Function.update_same]

/-- Field equations of a found `NodeTree_Update`: only `entries` and the
version counter change, and no entry id changes. -/
theorem updateResult_fields (s : NodeTreeState) (node : EngineNode)
    (hfound : ¬ nt_hash_find s.hash node.mID < 0) :
    (NodeTree_Update s node).node_count = s.node_count ∧
    (NodeTree_Update s node).versionIncrements = s.versionIncrements + 1 ∧
    (NodeTree_Update s node).free_next = s.free_next ∧
    (NodeTree_Update s node).free_head = s.free_head ∧
    (NodeTree_Update s node).hash = s.hash ∧
    (NodeTree_Update s node).dropped_count = s.dropped_count := by
  rw [NodeTree_Update]
  rw [if_neg hfound]
  exact ⟨rfl, rfl, rfl, rfl, rfl, rfl⟩

theorem updateResult_ids (s : NodeTreeState) (node : EngineNode)
    (hfound : ¬ nt_hash_find s.hash node.mID < 0) (i : Nat) :
    ((NodeTree_Update s node).entries i).id = (s.entries i).id := by
  rw [NodeTree_Update]
  rw [if_neg hfound]
  dsimp only
  rcases node.mPrevID with - | pid <;> rcases node.mNextID with - | nid <;>
    rcases node.mParentID with - | parid <;>
      simp only [patch_next_keep_id, patch_prev_keep_id, patch_head_keep_id,
        ite_patch_next_keep_id, ite_patch_prev_keep_id, ite_patch_headCond_keep_id] <;>
      (by_cases hisl : i = (nt_hash_find s.hash node.mID).toNat
       · rw [hisl, Function.update_same]
         split_ifs <;> rfl
       · rw [Function.update_noteq hisl])

/-- `NodeTree_Add` preserves the mirror invariant (for a real node id). -/
theorem ntInv_add {s : NodeTreeState} {node : EngineNode}
    (hInv : NTInv s) (hid : node.mID ≠ -1) : NTInv (NodeTree_Add s node) := by
  by_cases hfree : s.free_head < 0
  · rw [NodeTree_Add, if_pos hfree]
    exact ⟨hInv.countEq, hInv.verGe, hInv.freeRep, hInv.hashSound, hInv.hashInj⟩
  · obtain ⟨L, hrep, hnodup, hids⟩ := hInv.freeRep
    obtain ⟨a, L', rfl⟩ : ∃ a L', L = a :: L' := by
      cases L with
      | nil =>
        rw [FreeListRep] at hrep
        omega
      | cons a L' => exact ⟨a, L', rfl⟩
    obtain ⟨hhead, haN, hrep'⟩ := hrep
    have hanodup := List.nodup_cons.mp hnodup
    have haid : (s.entries a).id = -1 := hids a (List.mem_cons_self _ _)
    have hsl : s.free_head.toNat = a := by
      rw [hhead]
      exact Int.toNat_natCast a
    obtain ⟨hcount, hver, hfnext, hfhead, hhash⟩ := addResult_fields s node hfree
    have hents := addResult_ids s node hfree
    rw [hsl] at hents hfhead hhash
    -- ids of the new entry array, named
    have hid_at : ∀ i, i ≠ a → ((NodeTree_Add s node).entries i).id = (s.entries i).id := by
      intro i hi
      rw [hents i, Function.update_noteq hi]
    have hid_a : ((NodeTree_Add s node).entries a).id = node.mID := by
      rw [hents a, Function.update_same]
      rfl
    refine ⟨?_, ?_, ?_, ?_, ?_⟩
    · -- node_count = number of in-use entries
      rw [hcount, hInv.countEq]
      rw [inUseCount, inUseCount]
      rw [countInUse_congr hents]
      rw [countInUse_update_free haN haid (by exact hid)]
    · rw [hcount, hver]
      exact Nat.add_le_add_right hInv.verGe 1
    · -- free list: the tail of the old chain
      refine ⟨L', ?_, hanodup.2, ?_⟩
      · rw [hfnext, hfhead]
        exact hrep'
      · intro x hx
        have hxa : x ≠ a := fun hc => hanodup.1 (hc ▸ hx)
        rw [hid_at x hxa]
        exact hids x (List.mem_cons_of_mem _ hx)
    · -- hash soundness
      intro b hocc
      rw [hhash] at hocc ⊢
      rcases nt_hash_insert_cases s.hash node.mID (a : Int) with hcase | ⟨b0, hb0, hcase⟩
      · rw [hcase] at hocc ⊢
        obtain ⟨h1, h2, h3, h4⟩ := hInv.hashSound b hocc
        refine ⟨h1, h2, h3, ?_⟩
        have hne : (s.hash b).value.toNat ≠ a := by
          intro hc
          rw [hc] at h4
          rw [haid] at h4
          exact h1 h4.symm
        rw [hid_at _ hne]
        exact h4
      · rw [hcase] at hocc ⊢
        by_cases hb : b = b0
        · subst hb
          rw [Function.update_same] at hocc ⊢
          refine ⟨by exact hid, by show (0 : Int) ≤ ((a : Nat) : Int); exact Int.natCast_nonneg a, ?_, ?_⟩
          · show ((a : Nat) : Int) < (NODE_TREE_MIRROR_MAX_NODES : Int)
            exact_mod_cast haN
          · show ((NodeTree_Add s node).entries ((a : Int)).toNat).id = node.mID
            rw [Int.toNat_natCast a]
            exact hid_a
        · rw [Function.update_noteq hb] at hocc ⊢
          obtain ⟨h1, h2, h3, h4⟩ := hInv.hashSound b hocc
          refine ⟨h1, h2, h3, ?_⟩
          have hne : (s.hash b).value.toNat ≠ a := by
            intro hc
            rw [hc] at h4
            rw [haid] at h4
            exact h1 h4.symm
          rw [hid_at _ hne]
          exact h4
    · -- hash value injectivity
      intro b1 b2 hne hocc1 hocc2
      rw [hhash] at hocc1 hocc2 ⊢
      rcases nt_hash_insert_cases s.hash node.mID (a : Int) with hcase | ⟨b0, hb0, hcase⟩
      · rw [hcase] at hocc1 hocc2 ⊢
        exact hInv.hashInj b1 b2 hne hocc1 hocc2
      · rw [hcase] at hocc1 hocc2 ⊢
        have hval_ne_a : ∀ b, (s.hash b).key ≠ NT_HASH_EMPTY → (s.hash b).value ≠ (a : Int) := by
          intro b hocc hc
          obtain ⟨h1, h2, h3, h4⟩ := hInv.hashSound b hocc
          rw [hc] at h4
          rw [Int.toNat_natCast a] at h4
          rw [haid] at h4
          exact h1 h4.symm
        by_cases hb1 : b1 = b0
        · subst hb1
          rw [Function.update_same] at hocc1 ⊢
          rw [Function.update_noteq (fun hc => hne hc.symm)] at hocc2 ⊢
          exact fun hc => hval_ne_a b2 hocc2 hc.symm
        · rw [Function.update_noteq hb1] at hocc1 ⊢
          by_cases hb2 : b2 = b0
          · subst hb2
            rw [Function.update_same] at hocc2 ⊢
            exact fun hc => hval_ne_a b1 hocc1 hc
          · rw [Function.update_noteq hb2] at hocc2 ⊢
            exact hInv.hashInj b1 b2 hne hocc1 hocc2

/-- `NodeTree_Remove` preserves the mirror invariant. -/
theorem ntInv_remove {s : NodeTreeState} {nodeId : Int}
    (hInv : NTInv s) : NTInv (NodeTree_Remove s nodeId) := by
  by_cases hfound : nt_hash_find s.hash nodeId < 0
  · rw [NodeTree_Remove, if_pos hfound]
    by_cases hd : s.dropped_count > 0
    · rw [if_pos hd]
      exact ⟨hInv.countEq, hInv.verGe, hInv.freeRep, hInv.hashSound, hInv.hashInj⟩
    · rw [if_neg hd]
      exact hInv
  · cases hfa : htFindAux s.hash nodeId NT_HASH_CAPACITY (nt_hash_func nodeId) with
    | none =>
      exfalso
      apply hfound
      rw [nt_hash_find, hfa]
      norm_num
    | some b =>
      have hfind : nt_hash_find s.hash nodeId = (s.hash b).value := by
        rw [nt_hash_find, hfa]
      obtain ⟨hkey, hocc⟩ := htFindAux_some hfa
      obtain ⟨hk1, hv0, hvN, hvid⟩ := hInv.hashSound b hocc
      have hnid : nodeId ≠ -1 := hkey ▸ hk1
      have hslN : (s.hash b).value.toNat < NODE_TREE_MIRROR_MAX_NODES := by omega
      have hslid : (s.entries (s.hash b).value.toNat).id = nodeId := by
        rw [hvid, hkey]
      have hslid' : (s.entries (s.hash b).value.toNat).id ≠ -1 := by
        rw [hslid]
        exact hnid
      obtain ⟨hcount, hver, hfnext, hfhead, hhash⟩ := removeResult_fields s nodeId hfound
      obtain ⟨hid_at, hid_sl⟩ := removeResult_ids s nodeId hfound
      rw [hfind] at hfnext hfhead hid_sl
      have hid_at' : ∀ i, i ≠ (s.hash b).value.toNat →
          ((NodeTree_Remove s nodeId).entries i).id = (s.entries i).id := by
        intro i hi
        apply hid_at
        rw [hfind]
        exact hi
      have hhash' : (NodeTree_Remove s nodeId).hash =
          htShiftLoop NT_HASH_CAPACITY s.hash b := by
        rw [hhash, nt_hash_remove, hfa]
      have hpoint : ∀ i, ((NodeTree_Remove s nodeId).entries i).id =
          ((Function.update s.entries (s.hash b).value.toNat
            ({ s.entries (s.hash b).value.toNat with id := -1 })) i).id := by
        intro i
        by_cases hi : i = (s.hash b).value.toNat
        · rw [hi, Function.update_same]
          exact hid_sl
        · rw [Function.update_noteq hi]
          exact hid_at' i hi
      have hused := countInUse_update_used (e := { s.entries (s.hash b).value.toNat with id := -1 })
        hslN hslid' rfl
      have hpos : 1 ≤ inUseCount s := countInUse_pos hslN hslid'
      have hcpos : 0 < s.node_count := by
        rw [hInv.countEq]
        exact hpos
      refine ⟨?_, ?_, ?_, ?_, ?_⟩
      · rw [hcount, if_pos hcpos]
        rw [inUseCount, countInUse_congr hpoint]
        have hc := hInv.countEq
        rw [inUseCount] at hc
        omega
      · rw [hcount, hver]
        have := hInv.verGe
        split_ifs <;> omega
      · obtain ⟨L, hrep, hnodup, hids⟩ := hInv.freeRep
        have hnotL : ∀ x ∈ L, x ≠ (s.hash b).value.toNat := by
          intro x hx hc
          apply hslid'
          rw [← hc]
          exact hids x hx
        refine ⟨(s.hash b).value.toNat :: L, ⟨?_, hslN, ?_⟩, ?_, ?_⟩
        · rw [hfhead]
        · rw [hfnext, Function.update_same]
          apply freeListRep_congr L s.free_next _ s.free_head hrep
          intro x hx
          exact Function.update_noteq (hnotL x hx) _ _
        · exact List.nodup_cons.mpr ⟨fun hc => hnotL _ hc rfl, hnodup⟩
        · intro x hx
          rcases List.mem_cons.mp hx with rfl | hx
          · exact hid_sl
          · rw [hid_at' x (hnotL x hx)]
            exact hids x hx
      · intro b2 hocc2
        rw [hhash'] at hocc2 ⊢
        obtain ⟨b0, hb0⟩ := htShiftLoop_subset NT_HASH_CAPACITY s.hash b b2 hocc2
        rw [hb0] at hocc2 ⊢
        by_cases hb0b : b0 = b
        · rw [hb0b, Function.update_same] at hocc2
          exact absurd rfl hocc2
        · rw [Function.update_noteq hb0b] at hocc2 ⊢
          obtain ⟨h1, h2, h3, h4⟩ := hInv.hashSound b0 hocc2
          refine ⟨h1, h2, h3, ?_⟩
          have hne_sl : (s.hash b0).value.toNat ≠ (s.hash b).value.toNat := by
            intro hc
            have hveq : (s.hash b0).value = (s.hash b).value := by omega
            exact hInv.hashInj b0 b hb0b hocc2 hocc hveq
          rw [hid_at' _ hne_sl]
          exact h4
      · intro b1 b2 hne hocc1 hocc2
        rw [hhash'] at hocc1 hocc2 ⊢
        apply htShiftLoop_injective NT_HASH_CAPACITY s.hash b ?_ b1 b2 hne hocc1 hocc2
        intro c1 c2 hcne _ _ ho1 ho2
        exact hInv.hashInj c1 c2 hcne ho1 ho2

/-- `NodeTree_Update` preserves the mirror invariant (for a real node
id). -/
theorem ntInv_update {s : NodeTreeState} {node : EngineNode}
    (hInv : NTInv s) (hid : node.mID ≠ -1) : NTInv (NodeTree_Update s node) := by
  by_cases hfound : nt_hash_find s.hash node.mID < 0
  · rw [NodeTree_Update, if_pos hfound]
    exact ntInv_add hInv hid
  · obtain ⟨hcount, hver, hfnext, hfhead, hhash, -⟩ := updateResult_fields s node hfound
    have hids := updateResult_ids s node hfound
    refine ⟨?_, ?_, ?_, ?_, ?_⟩
    · rw [hcount, hInv.countEq]
      rw [inUseCount, inUseCount, countInUse_congr hids]
    · rw [hcount, hver]
      exact hInv.verGe.trans (Nat.le_succ _)
    · obtain ⟨L, hrep, hnodup, hfree⟩ := hInv.freeRep
      refine ⟨L, ?_, hnodup, ?_⟩
      · rw [hfnext, hfhead]
        exact hrep
      · intro x hx
        rw [hids x]
        exact hfree x hx
    · intro b hocc
      rw [hhash] at hocc ⊢
      obtain ⟨h1, h2, h3, h4⟩ := hInv.hashSound b hocc
      refine ⟨h1, h2, h3, ?_⟩
      rw [hids]
      exact h4
    · intro b1 b2 hne hocc1 hocc2
      rw [hhash] at hocc1 hocc2 ⊢
      exact hInv.hashInj b1 b2 hne hocc1 hocc2

/-- The initial free list covers the slot range `[k, 1024)` when `k + m`
exhausts the pool. -/
theorem initFree_aux : ∀ (m k : Nat), k + m = NODE_TREE_MIRROR_MAX_NODES →
    FreeListRep ntInit.free_next (if 0 < m then (k : Int) else -1) (List.range' k m) := by
  intro m
  induction m with
  | zero =>
    intro k hk
    simp [FreeListRep, List.range']
  | succ m ih =>
    intro k hk
    have hN : NODE_TREE_MIRROR_MAX_NODES = 1024 := rfl
    rw [hN] at hk
    rw [if_pos (Nat.succ_pos m), List.range'_succ]
    refine ⟨rfl, by rw [hN]; omega, ?_⟩
    have hnext : ntInit.free_next k = if 0 < m then ((k + 1 : Nat) : Int) else -1 := by
      show (if k < 1023 then ((k + 1 : Nat) : Int) else -1) = _
      by_cases hm : 0 < m
      · rw [if_pos hm, if_pos (by omega)]
      · rw [if_neg hm, if_neg (by omega)]
    rw [hnext]
    exact ih (k + 1) (by rw [hN]; omega)

/-- The freshly initialised mirror satisfies the invariant. -/
theorem ntInv_init : NTInv ntInit := by
  refine ⟨?_, Nat.le_refl 0, ?_, ?_, ?_⟩
  · show 0 = inUseCount ntInit
    rw [inUseCount, countInUse]
    rw [Finset.filter_false_of_mem]
    · rfl
    · intro i _
      show ¬ ((ntInit.entries i).id ≠ -1)
      simp [ntInit]
  · refine ⟨List.range' 0 NODE_TREE_MIRROR_MAX_NODES, ?_, ?_, ?_⟩
    · have h := initFree_aux NODE_TREE_MIRROR_MAX_NODES 0 rfl
      rw [if_pos (by decide)] at h
      exact h
    · exact List.nodup_range' _ _
    · intro a _
      rfl
  · intro b h
    exact absurd rfl h
  · intro b1 b2 _ h1 _
    exact absurd rfl h1

/-- Any sequence of lifecycle operations with real node ids preserves the
mirror invariant from any state satisfying it. -/
theorem ntInv_run : ∀ (ops : List NTOp) (s : NodeTreeState), NTInv s →
    (∀ op ∈ ops, opIdOk op) → NTInv (runNT s ops) := by
  intro ops
  induction ops with
  | nil =>
    intro s hInv _
    exact hInv
  | cons op rest ih =>
    intro s hInv hok
    have hok1 : opIdOk op := hok op (List.mem_cons_self op rest)
    have hokr : ∀ o ∈ rest, opIdOk o := fun o ho => hok o (List.mem_cons_of_mem _ ho)
    cases op with
    | addNode n => exact ih _ (ntInv_add hInv hok1) hokr
    | removeNode i => exact ih _ (ntInv_remove hInv) hokr
    | updateNode n => exact ih _ (ntInv_update hInv hok1) hokr

/-- C8: after initialization and ANY sequence of NodeTree_Add,
NodeTree_Remove and NodeTree_Update calls whose node ids are real (never
the empty-slot sentinel −1, per spec 3.5) — including adds that hit a
full mirror and removes of ids that are not present — the number of
mirror entries with `id ≠ −1` equals `node_count`, and whenever
`node_count > 0` the version counter has been incremented at least
`node_count` times. -/
theorem c8_mirror_consistency (ops : List NTOp) (hok : ∀ op ∈ ops, opIdOk op) :
    inUseCount (runNT ntInit ops) = (runNT ntInit ops).node_count ∧
    (0 < (runNT ntInit ops).node_count →
      (runNT ntInit ops).node_count ≤ (runNT ntInit ops).versionIncrements) := by
  have h := ntInv_run ops ntInit ntInv_init hok
  exact ⟨h.countEq.symm, fun _ => h.verGe⟩

/-- Witness for C8 at the concrete sequence `c8Ops`. -/
theorem c8_mirror_consistency_witness :
    (∀ op ∈ c8Ops, opIdOk op) ∧
    (inUseCount (runNT ntInit c8Ops) = (runNT ntInit c8Ops).node_count ∧
     (0 < (runNT ntInit c8Ops).node_count →
       (runNT ntInit c8Ops).node_count ≤ (runNT ntInit c8Ops).versionIncrements)) :=
  ⟨by decide, c8_mirror_consistency c8Ops (by decide)⟩

/-- A left fold preserves a property each step keeps. -/
theorem foldl_keepP {α β : Type} (g : α → β → α) (P : α → Prop) :
    ∀ (l : List β) (d : α), (∀ d i, i ∈ l → P d → P (g d i)) → P d →
      P (l.foldl g d) := by
  intro l
  induction l with
  | nil =>
    intro d _ h
    exact h
  | cons i rest ih =>
    intro d hkeep h
    exact ih _ (fun d j hj => hkeep d j (List.mem_cons_of_mem _ hj))
      (hkeep d i (List.mem_cons_self _ _) h)

/-- A left fold establishes a property that a designated element's step
establishes unconditionally and every other step keeps. -/
theorem foldl_estabP {α β : Type} (g : α → β → α) (P : α → Prop) (k : β)
    (hset : ∀ d, P (g d k)) (hkeep : ∀ d i, i ≠ k → P d → P (g d i)) :
    ∀ (l : List β) (d : α), k ∈ l → P (l.foldl g d) := by
  intro l
  induction l with
  | nil =>
    intro d h
    cases h
  | cons i rest ih =>
    intro d hk
    by_cases hmem : k ∈ rest
    · exact ih _ hmem
    · have hik : i = k := by
        rcases List.mem_cons.mp hk with h | h
        · exact h.symm
        · exact absurd h hmem
      subst hik
      show P (rest.foldl g (g d i))
      refine foldl_keepP g P rest _ ?_ (hset d)
      intro d2 j _ hP
      by_cases hji : j = i
      · rw [hji]
        exact hset d2
      · exact hkeep d2 j hji hP

/-- Pointwise content of the interleaving loop: the captured sample at
`(head+frame)*2+ch` is bus sample `ch*128+frame`. -/
theorem captureWrite_at (data : Nat → Int) (head : Nat) (bus : Nat → Int)
    (numOutputs : Nat) (frame ch : Nat) (hf : frame < QUANTUM_SIZE)
    (hc : ch < min numOutputs AUDIO_CAPTURE_CHANNELS) :
    captureWrite data head bus numOutputs
        ((head + frame) * AUDIO_CAPTURE_CHANNELS + ch) =
      bus (ch * QUANTUM_SIZE + frame) := by
  have hCH : AUDIO_CAPTURE_CHANNELS = 2 := rfl
  have hch2 : ch < AUDIO_CAPTURE_CHANNELS := lt_of_lt_of_le hc (min_le_right _ _)
  unfold captureWrite
  refine foldl_estabP _
    (fun d => d ((head + frame) * AUDIO_CAPTURE_CHANNELS + ch) =
      bus (ch * QUANTUM_SIZE + frame)) frame ?_ ?_ _ data
    (List.mem_range.mpr hf)
  · intro d
    refine foldl_estabP _
      (fun d => d ((head + frame) * AUDIO_CAPTURE_CHANNELS + ch) =
        bus (ch * QUANTUM_SIZE + frame)) ch ?_ ?_ _ d (List.mem_range.mpr hc)
    · intro d2
      exact Function.update_same _ _ _
    · intro d2 c hne hP
      rw [Function.update_noteq (by omega)]
      exact hP
  · intro d f2 hne hP
    refine foldl_keepP _
      (fun d => d ((head + frame) * AUDIO_CAPTURE_CHANNELS + ch) =
        bus (ch * QUANTUM_SIZE + frame)) _ d ?_ hP
    intro d2 c hcmem hP2
    have hc2 : c < AUDIO_CAPTURE_CHANNELS :=
      lt_of_lt_of_le (List.mem_range.mp hcmem) (min_le_right _ _)
    rw [Function.update_noteq (by rw [hCH] at hch2 hc2 ⊢; omega)]
    exact hP2

/-- In-room branch of the capture block: data written via
`captureWrite`, head advanced, no log. -/
theorem captureStep_room (cap : CaptureState) (bus : Nat → Int)
    (numOutputs : Nat) (hen : cap.enabled ≠ 0)
    (hroom : cap.head + QUANTUM_SIZE ≤ AUDIO_CAPTURE_FRAMES) :
    captureStep cap bus numOutputs =
      ({ cap with data := captureWrite cap.data cap.head bus numOutputs, head := cap.head + QUANTUM_SIZE }, false) := by
  unfold captureStep
  rw [if_pos hen, if_pos hroom]

/-- Full branch of the capture block: only the log-once flag can move. -/
theorem captureStep_full (cap : CaptureState) (bus : Nat → Int)
    (numOutputs : Nat) (hen : cap.enabled ≠ 0)
    (hfull : AUDIO_CAPTURE_FRAMES < cap.head + QUANTUM_SIZE) :
    captureStep cap bus numOutputs =
      if cap.loggedBufferFull = false then
        ({ cap with loggedBufferFull := true }, true)
      else (cap, false) := by
  unfold captureStep
  rw [if_pos hen, if_neg (by omega)]

/-- Every `captureStep` either emits no log and keeps the log-once flag,
or emits the log, sets the flag, and started with the flag clear. -/
theorem captureStep_log_cases (cap : CaptureState) (bus : Nat → Int)
    (n : Nat) :
    ((captureStep cap bus n).2 = false ∧
      (captureStep cap bus n).1.loggedBufferFull = cap.loggedBufferFull) ∨
    ((captureStep cap bus n).2 = true ∧
      (captureStep cap bus n).1.loggedBufferFull = true ∧
      cap.loggedBufferFull = false) := by
  unfold captureStep
  by_cases hen : cap.enabled ≠ 0
  · rw [if_pos hen]
    by_cases hroom : cap.head + QUANTUM_SIZE ≤ AUDIO_CAPTURE_FRAMES
    · rw [if_pos hroom]
      exact Or.inl ⟨rfl, rfl⟩
    · rw [if_neg hroom]
      by_cases hlog : cap.loggedBufferFull = false
      · rw [if_pos hlog]
        exact Or.inr ⟨rfl, rfl, hlog⟩
      · rw [if_neg hlog]
        exact Or.inl ⟨rfl, rfl⟩
  · rw [if_neg hen]
    exact Or.inl ⟨rfl, rfl⟩

/-- Once the log-once flag is set, no further capture call logs. -/
theorem runCapture_zero_of_logged :
    ∀ (l : List ((Nat → Int) × Nat)) (cap : CaptureState),
    cap.loggedBufferFull = true → (runCapture cap l).2 = 0 := by
  intro l
  induction l with
  | nil =>
    intro cap _
    rfl
  | cons q rest ih =>
    intro cap h
    simp only [runCapture]
    rcases captureStep_log_cases cap q.1 q.2 with ⟨hf, hlg⟩ | ⟨_, _, hcontra⟩
    · rw [hf, ih _ (by rw [hlg]; exact h)]
      rfl
    · rw [h] at hcontra
      exact Bool.noConfusion hcontra

/-- From a state whose log-once flag is clear, a whole run logs at most
once. -/
theorem runCapture_log_once :
    ∀ (l : List ((Nat → Int) × Nat)) (cap : CaptureState),
    cap.loggedBufferFull = false → (runCapture cap l).2 ≤ 1 := by
  intro l
  induction l with
  | nil =>
    intro cap _
    exact Nat.zero_le 1
  | cons q rest ih =>
    intro cap h
    simp only [runCapture]
    rcases captureStep_log_cases cap q.1 q.2 with ⟨hf, hlg⟩ | ⟨ht, hlg, _⟩
    · rw [hf]
      have := ih _ (by rw [hlg]; exact h)
      simpa using this
    · rw [ht, runCapture_zero_of_logged rest _ hlg]
      simp

/-- C9 counterexample: with capture enabled, the log-once flag clear and
head 47900 (so the quantum does not fit in the 48000-frame region), the
full branch logs but does NOT clear the enabled flag - contrary to the
claim "the enabled flag is set to disabled"; capture stays enabled. -/
theorem c9_counterexample :
    AUDIO_CAPTURE_FRAMES < 47900 + QUANTUM_SIZE ∧
    (captureStep ⟨1, 47900, fun _ => 0, false⟩ (fun _ => 0) 2).1.enabled = 1 ∧
    (captureStep ⟨1, 47900, fun _ => 0, false⟩ (fun _ => 0) 2).2 = true :=
  ⟨by decide, rfl, rfl⟩

/-- C9 (amended): when capture is enabled and the quantum fits
(`head + 128 ≤ 48000`), the output is interleaved into the capture region
(`data[(head+frame)*2+ch] = bus[ch*128+frame]` for each frame and each
`ch < min(numOutputs, 2)`), the head advances by one quantum, the enabled
flag is untouched and nothing is logged. When the region is full
(`head + 128 > 48000`), enabled, head and data are ALL unchanged - the
code never clears the enabled flag - and the buffer-full line is logged
exactly when it has not been logged before; across any run that starts
with the log-once flag clear, at most one log line is emitted in total. -/
theorem c9_audio_capture (cap : CaptureState) (bus : Nat → Int)
    (numOutputs : Nat) :
    (cap.enabled ≠ 0 → cap.head + QUANTUM_SIZE ≤ AUDIO_CAPTURE_FRAMES →
      (captureStep cap bus numOutputs).1.head = cap.head + QUANTUM_SIZE ∧
      (captureStep cap bus numOutputs).1.enabled = cap.enabled ∧
      (captureStep cap bus numOutputs).2 = false ∧
      ∀ frame ch, frame < QUANTUM_SIZE →
        ch < min numOutputs AUDIO_CAPTURE_CHANNELS →
        (captureStep cap bus numOutputs).1.data
            ((cap.head + frame) * AUDIO_CAPTURE_CHANNELS + ch) =
          bus (ch * QUANTUM_SIZE + frame)) ∧
    (cap.enabled ≠ 0 → AUDIO_CAPTURE_FRAMES < cap.head + QUANTUM_SIZE →
      (captureStep cap bus numOutputs).1.enabled = cap.enabled ∧
      (captureStep cap bus numOutputs).1.head = cap.head ∧
      (captureStep cap bus numOutputs).1.data = cap.data ∧
      ((captureStep cap bus numOutputs).2 = true ↔
        cap.loggedBufferFull = false)) ∧
    (cap.loggedBufferFull = false →
      ∀ quanta : List ((Nat → Int) × Nat), (runCapture cap quanta).2 ≤ 1) := by
  refine ⟨?_, ?_, ?_⟩
  · intro hen hroom
    rw [captureStep_room cap bus numOutputs hen hroom]
    refine ⟨rfl, rfl, rfl, ?_⟩
    intro frame ch hf hc
    exact captureWrite_at cap.data cap.head bus numOutputs frame ch hf hc
  · intro hen hfull
    rw [captureStep_full cap bus numOutputs hen hfull]
    by_cases hlog : cap.loggedBufferFull = false
    · rw [if_pos hlog]
      exact ⟨rfl, rfl, rfl, ⟨fun _ => hlog, fun _ => rfl⟩⟩
    · rw [if_neg hlog]
      exact ⟨rfl, rfl, rfl, ⟨fun hc => Bool.noConfusion hc, fun hc => absurd hc hlog⟩⟩
  · intro hlog quanta
    exact runCapture_log_once quanta cap hlog

/-- Witness for C9 at a concrete enabled state with room: the head
advances to 128, the captured sample at frame 2, channel 1 is bus sample
130, and a one-quantum run from the fresh state logs at most once. -/
theorem c9_audio_capture_witness :
    (captureStep c9w c9wBus 2).1.head = 0 + QUANTUM_SIZE ∧
    (captureStep c9w c9wBus 2).1.data ((0 + 2) * AUDIO_CAPTURE_CHANNELS + 1) =
      c9wBus (1 * QUANTUM_SIZE + 2) ∧
    (runCapture c9w [(c9wBus, 2)]).2 ≤ 1 :=
  ⟨((c9_audio_capture c9w c9wBus 2).1 (by decide) (by decide)).1,
   ((c9_audio_capture c9w c9wBus 2).1 (by decide) (by decide)).2.2.2 2 1
     (by decide) (by decide),
   (c9_audio_capture c9w c9wBus 2).2.2 rfl [(c9wBus, 2)]⟩

/-- C10: a `process_audio` call made while `memory_initialized` is false
returns true (keep-alive) and leaves the entire shared-memory region -
rings, control block, metrics, node-tree mirror, time fields, capture
region - and the bundle scheduler unchanged, for EVERY possible behaviour
of the rest of the function. -/
theorem c10_preinit_noop (rest : SystemState → Bool × SystemState)
    (st : SystemState) (h : st.memoryInitialized = false) :
    processAudio rest st = (true, st) := by
  rw [processAudio, if_pos h]

/-- Witness for C10: on the concrete uninitialised state, even a mutating
remainder is never reached - the call returns `(true, c10st)`. -/
theorem c10_preinit_noop_witness : processAudio c10rest c10st = (true, c10st) :=
  c10_preinit_noop c10rest c10st rfl

end SuperSonic
